import Mathlib

/-!
Shallow embedding of the GTS (Global Type System) core algorithms:
identifier parsing (`NewGtsID` / `parseSegment`), wildcard matching
(`MatchIDPattern` / `matchSegments`), UUIDv5 derivation (`ToUUID`),
schema flattening and compatibility checking (`flattenSchema`,
`checkSchemaCompatibility`, `checkMinMaxConstraint`), instance casting
(`Cast` / `castInstanceToSchema`), the relationship-graph resolver
(`BuildSchemaGraph` / `buildNode`), and query filters (`matchesFilters`).

Go strings are modelled as `List Char`, Go `map[string]any` JSON documents
as association lists (`Json.obj`), Go `nil` / fallible results as
`Option` / `Except`, and a Go runtime panic (unchecked type assertion)
as `Option.none` propagation.
-/

namespace Gts

set_option maxRecDepth 8000

/-! ## Go `strings` package primitives, modelled on `List Char` -/

/-- ASCII whitespace, for `strings.TrimSpace` (inputs of interest are ASCII). -/
def isSpaceChar (c : Char) : Bool :=
  c = ' ' || c = '\t' || c = '\n' || c = '\r' || c = '\x0b' || c = '\x0c'

/-- Go `strings.TrimSpace`. -/
def trimSpaceList (l : List Char) : List Char :=
  ((l.dropWhile isSpaceChar).reverse.dropWhile isSpaceChar).reverse

/-- ASCII lowering of one character, for Go `strings.ToLower`. -/
def lowerChar (c : Char) : Char :=
  if 65 ≤ c.toNat ∧ c.toNat ≤ 90 then Char.ofNat (c.toNat + 32) else c

/-- Go `strings.ToLower` (ASCII fragment). -/
def toLowerList (l : List Char) : List Char := l.map lowerChar

/-- Go `strings.Count` for a single-character substring. -/
def countChar (c : Char) (l : List Char) : Nat := l.count c

/-- Go `strings.Contains` with a single-character substring. -/
def containsChar (l : List Char) (c : Char) : Bool := l.contains c

/-- Go `strings.HasPrefix`. -/
def hasPfx (p l : List Char) : Bool := p.isPrefixOf l

/-- Go `strings.HasSuffix`. -/
def hasSfx (s l : List Char) : Bool := s.isSuffixOf l

/-- Go `strings.Split` with a one-character separator. -/
def splitOnChar (sep : Char) : List Char → List (List Char)
  | [] => [[]]
  | c :: rest =>
    let r := splitOnChar sep rest
    if c = sep then [] :: r
    else
      match r with
      | [] => [[c]]
      | h :: t => (c :: h) :: t

/-- Go `strings.ReplaceAll` for a two-character pattern (left-to-right,
non-overlapping). -/
def replacePairAll (a b : Char) (repl : List Char) : List Char → List Char
  | [] => []
  | [c] => [c]
  | c1 :: c2 :: rest =>
    if c1 = a && c2 = b then repl ++ replacePairAll a b repl rest
    else c1 :: replacePairAll a b repl (c2 :: rest)

/-- Decimal digits of a `Nat` token; `none` unless the token is a non-empty
digit string. -/
def digitsToNat? : List Char → Option Nat
  | [] => none
  | l =>
    if l.all (fun c => c.isDigit) then
      some (l.foldl (fun acc c => acc * 10 + (c.toNat - 48)) 0)
    else none

/-- Go `strconv.Atoi` (sign handling included; overflow ignored, which is
irrelevant for the version tokens at issue). -/
def atoiList : List Char → Option Int
  | '+' :: rest => (digitsToNat? rest).map (fun n => (n : Int))
  | '-' :: rest => (digitsToNat? rest).map (fun n => -(n : Int))
  | l => (digitsToNat? l).map (fun n => (n : Int))

/-- Go `strconv.Itoa`. -/
def itoaList (i : Int) : List Char := (toString i).toList

/-! ## Identifier model (`gts.go`) -/

/-- `GtsPrefix = "gts."`. -/
def gtsPfx : List Char := ['g', 't', 's', '.']

/-- `MaxIDLength = 1024`. -/
def maxIDLength : Nat := 1024

/-- The regex `^[a-z_][a-z0-9_]*$` used by `segmentTokenRegex`. -/
def segmentTokenOK : List Char → Bool
  | [] => false
  | c :: rest =>
    (c.isLower || c = '_') && rest.all (fun d => d.isLower || d.isDigit || d = '_')

/-- Field-for-field mirror of Go `GtsIDSegment`.  Go zero values (empty
string, `0`, `nil`, `false`) become `[]`, `0`, `none`, `false`. -/
structure GtsIDSegment where
  num : Nat
  offset : Nat
  segment : List Char
  vendor : List Char := []
  pkg : List Char := []
  namespc : List Char := []
  typeName : List Char := []
  verMajor : Int := 0
  verMinor : Option Int := none
  isTypeFlag : Bool := false
  isWildcard : Bool := false
deriving Repr, DecidableEq

/-- Mirror of Go `GtsID`. -/
structure GtsID where
  id : List Char
  segments : List GtsIDSegment
deriving Repr, DecidableEq

/-- Mirror of Go `InvalidSegmentError`. -/
structure InvalidSegmentError where
  num : Nat
  offset : Nat
  segment : List Char
  cause : String
deriving Repr, DecidableEq

/-- Errors out of `NewGtsID`: either a whole-identifier error or a
segment-level error, as in the Go code. -/
inductive GtsIDErr where
  | invalidID (id : List Char) (cause : String)
  | invalidSeg (e : InvalidSegmentError)
deriving Repr, DecidableEq

/-- The token-consuming tail of Go `parseSegment`: walks the `.`-separated
tokens, short-circuiting on a literal `*` token exactly as the Go code does. -/
def parseSegTokens (seg : GtsIDSegment) (tokens : List (List Char)) :
    Except InvalidSegmentError GtsIDSegment :=
  -- tokens[0] → Vendor
  match tokens.get? 0 with
  | none => .ok seg
  | some t0 =>
    if t0 = ['*'] then .ok { seg with isWildcard := true }
    else
      let seg := { seg with vendor := t0 }
      match tokens.get? 1 with
      | none => .ok seg
      | some t1 =>
        if t1 = ['*'] then .ok { seg with isWildcard := true }
        else
          let seg := { seg with pkg := t1 }
          match tokens.get? 2 with
          | none => .ok seg
          | some t2 =>
            if t2 = ['*'] then .ok { seg with isWildcard := true }
            else
              let seg := { seg with namespc := t2 }
              match tokens.get? 3 with
              | none => .ok seg
              | some t3 =>
                if t3 = ['*'] then .ok { seg with isWildcard := true }
                else
                  let seg := { seg with typeName := t3 }
                  match tokens.get? 4 with
                  | none => .ok seg
                  | some t4 =>
                    if t4 = ['*'] then .ok { seg with isWildcard := true }
                    else if ¬ hasPfx ['v'] t4 then
                      .error ⟨seg.num, seg.offset, seg.segment,
                        "Major version must start with v"⟩
                    else
                      let majorStr := t4.drop 1
                      match atoiList majorStr with
                      | none =>
                        .error ⟨seg.num, seg.offset, seg.segment,
                          "Major version must be an integer"⟩
                      | some major =>
                        if major < 0 then
                          .error ⟨seg.num, seg.offset, seg.segment,
                            "Major version must be >= 0"⟩
                        else if itoaList major ≠ majorStr then
                          .error ⟨seg.num, seg.offset, seg.segment,
                            "Major version must be an integer"⟩
                        else
                          let seg := { seg with verMajor := major }
                          match tokens.get? 5 with
                          | none => .ok seg
                          | some t5 =>
                            if t5 = ['*'] then .ok { seg with isWildcard := true }
                            else
                              match atoiList t5 with
                              | none =>
                                .error ⟨seg.num, seg.offset, seg.segment,
                                  "Minor version must be an integer"⟩
                              | some minor =>
                                if minor < 0 then
                                  .error ⟨seg.num, seg.offset, seg.segment,
                                    "Minor version must be >= 0"⟩
                                else if itoaList minor ≠ t5 then
                                  .error ⟨seg.num, seg.offset, seg.segment,
                                    "Minor version must be an integer"⟩
                                else
                                  .ok { seg with verMinor := some minor }

/-- Mirror of Go `parseSegment`. -/
def parseSegment (num offset : Nat) (segment : List Char) :
    Except InvalidSegmentError GtsIDSegment :=
  let segText := trimSpaceList segment
  let seg0 : GtsIDSegment := { num := num, offset := offset, segment := segText }
  -- type marker handling
  if countChar '~' segText > 0 then
    if countChar '~' segText > 1 then
      .error ⟨num, offset, segment, "Too many ~ characters"⟩
    else if hasSfx ['~'] segText then
      let working := segText.dropLast
      let seg1 := { seg0 with isTypeFlag := true }
      let tokens := splitOnChar '.' working
      if tokens.length > 6 then
        .error ⟨num, offset, segment, "Too many tokens"⟩
      else if ¬ hasSfx ['*'] working ∧ tokens.length < 5 then
        .error ⟨num, offset, segment, "Too few tokens"⟩
      else if ¬ hasSfx ['*'] working ∧ ¬ (tokens.take 4).all segmentTokenOK then
        .error ⟨num, offset, segment, "Invalid segment token"⟩
      else
        parseSegTokens seg1 tokens
    else
      .error ⟨num, offset, segment, "~ must be at the end"⟩
  else
    let working := segText
    let tokens := splitOnChar '.' working
    if tokens.length > 6 then
      .error ⟨num, offset, segment, "Too many tokens"⟩
    else if ¬ hasSfx ['*'] working ∧ tokens.length < 5 then
      .error ⟨num, offset, segment, "Too few tokens"⟩
    else if ¬ hasSfx ['*'] working ∧ ¬ (tokens.take 4).all segmentTokenOK then
      .error ⟨num, offset, segment, "Invalid segment token"⟩
    else
      parseSegTokens seg0 tokens

/-- The part-collecting loop shared by `splitPreservingTilde`'s Go body:
re-attach `~` to every non-final piece and stop early when a trailing empty
piece follows the next-to-last piece. -/
def splitTildeLoop : List (List Char) → List (List Char)
  | [] => []
  | [last] => [last]
  | p :: rest =>
    match rest with
    | [q] => if q = [] then [p ++ ['~']] else (p ++ ['~']) :: splitTildeLoop rest
    | _ => (p ++ ['~']) :: splitTildeLoop rest

/-- Mirror of Go `splitPreservingTilde`. -/
def splitPreservingTilde (s : List Char) : List (List Char) :=
  splitTildeLoop (splitOnChar '~' s)

/-- The per-part loop of `NewGtsID` / `parseWildcardGtsID`: parse each
segment, accumulating the character offset. -/
def parseSegLoop (idStr : List Char) : Nat → Nat → List (List Char) →
    Except GtsIDErr (List GtsIDSegment)
  | _, _, [] => .ok []
  | i, off, part :: rest =>
    if part = [] then
      .error (.invalidID idStr ("GTS segment #" ++ toString (i + 1) ++
        " @ offset " ++ toString off ++ " is empty"))
    else
      match parseSegment (i + 1) off part with
      | .error e => .error (.invalidSeg e)
      | .ok seg =>
        match parseSegLoop idStr (i + 1) (off + part.length) rest with
        | .error e => .error e
        | .ok segs => .ok (seg :: segs)

/-- Mirror of Go `NewGtsID`. -/
def NewGtsID (idStr : List Char) : Except GtsIDErr GtsID :=
  let raw := trimSpaceList idStr
  if raw ≠ toLowerList raw then .error (.invalidID idStr "Must be lower case")
  else if containsChar raw '-' then .error (.invalidID idStr "Must not contain -")
  else if ¬ hasPfx gtsPfx raw then
    .error (.invalidID idStr "Does not start with gts.")
  else if raw.length > maxIDLength then .error (.invalidID idStr "Too long")
  else
    let remainder := raw.drop gtsPfx.length
    let parts := splitPreservingTilde remainder
    match parseSegLoop idStr 0 gtsPfx.length parts with
    | .error e => .error e
    | .ok segs => .ok { id := raw, segments := segs }

/-- Mirror of Go `IsValidGtsID`. -/
def IsValidGtsID (s : List Char) : Bool :=
  hasPfx gtsPfx s && (NewGtsID s).toOption.isSome

/-- Mirror of Go `(g *GtsID) IsType()`: a suffix check on the stored text. -/
def IsType (g : GtsID) : Bool := hasSfx ['~'] g.id

/-- Re-serialization of a parsed identifier: `"gts."` followed by the
segments' stored text in order (the invariant claimed in the spec). -/
def reserializeGtsID (g : GtsID) : List Char :=
  gtsPfx ++ (g.segments.map (fun s => s.segment)).flatten

/-! ## Wildcard matching (`match.go`) -/

/-- Mirror of Go `parseWildcardGtsID` (its body is the same validation
pipeline as `NewGtsID`; both skip any single-segment prohibition). -/
def parseWildcardGtsID (idStr : List Char) : Except GtsIDErr GtsID :=
  let raw := trimSpaceList idStr
  if raw ≠ toLowerList raw then .error (.invalidID idStr "Must be lower case")
  else if containsChar raw '-' then .error (.invalidID idStr "Must not contain -")
  else if ¬ hasPfx gtsPfx raw then
    .error (.invalidID idStr "Does not start with gts.")
  else if raw.length > maxIDLength then .error (.invalidID idStr "Too long")
  else
    let remainder := raw.drop gtsPfx.length
    let parts := splitPreservingTilde remainder
    match parseSegLoop idStr 0 gtsPfx.length parts with
    | .error e => .error e
    | .ok segs => .ok { id := raw, segments := segs }

/-- Mirror of Go `validateWildcardBase` (relaxed validation of the pattern
with wildcard tokens removed; returns no identifier, only success/failure). -/
def validateWildcardBase (basePattern : List Char) : Except String Unit :=
  if basePattern = [] then .error "empty base pattern"
  else if basePattern = ['g', 't', 's'] then .ok ()
  else if ¬ hasPfx gtsPfx basePattern then .error "does not start with gts."
  else if basePattern.length > maxIDLength then .error "too long"
  else if basePattern ≠ toLowerList basePattern then .error "must be lower case"
  else if containsChar basePattern '-' then .error "must not contain -"
  else .ok ()

/-- Mirror of Go `validateWildcard`. -/
def validateWildcard (pattern : List Char) : Except String GtsID :=
  let p := trimSpaceList pattern
  if ¬ hasPfx gtsPfx p then .error "Does not start with gts."
  else if countChar '*' p > 1 then .error "The wildcard token is allowed only once"
  else if countChar '*' p = 1 ∧
      ¬ (hasSfx ['.', '*'] p ∨ hasSfx ['~', '*'] p) then
    .error "The wildcard token is allowed only at the end of the pattern"
  else
    let tempPattern := replacePairAll '.' '*' [] p
    let tempPattern := replacePairAll '~' '*' ['~'] tempPattern
    match validateWildcardBase tempPattern with
    | .error e => .error e
    | .ok _ =>
      match parseWildcardGtsID p with
      | .error _ => .error "invalid wildcard id"
      | .ok g => .ok g

/-- The non-wildcard-segment comparison of Go `matchSegments`: all fields
must match, with an unspecified pattern minor version accepting any
candidate minor. -/
def segFieldsMatch (p c : GtsIDSegment) : Bool :=
  p.vendor = c.vendor && p.pkg = c.pkg && p.namespc = c.namespc &&
  p.typeName = c.typeName && p.verMajor = c.verMajor &&
  (match p.verMinor with
   | none => true
   | some pm =>
     match c.verMinor with
     | none => false
     | some cm => pm = cm) &&
  p.isTypeFlag = c.isTypeFlag

/-- The wildcard-segment comparison of Go `matchSegments`: only the
populated fields of the wildcard segment are compared. -/
def wildcardSegMatch (p c : GtsIDSegment) : Bool :=
  (p.vendor = [] || p.vendor = c.vendor) &&
  (p.pkg = [] || p.pkg = c.pkg) &&
  (p.namespc = [] || p.namespc = c.namespc) &&
  (p.typeName = [] || p.typeName = c.typeName) &&
  (p.verMajor = 0 || p.verMajor = c.verMajor) &&
  (match p.verMinor with
   | none => true
   | some pm =>
     match c.verMinor with
     | none => false
     | some cm => pm = cm) &&
  (!p.isTypeFlag || c.isTypeFlag)

/-- The positional walk of Go `matchSegments` (after the length guard): a
wildcard pattern segment decides immediately; a concrete one must match and
the walk continues.  Exhausting the pattern is a match. -/
def matchSegsLoop : List GtsIDSegment → List GtsIDSegment → Bool
  | [], _ => true
  | _ :: _, [] => false
  | p :: ps, c :: cs =>
    if p.isWildcard then wildcardSegMatch p c
    else segFieldsMatch p c && matchSegsLoop ps cs

/-- Mirror of Go `matchSegments`. -/
def matchSegments (patternSegs candidateSegs : List GtsIDSegment) : Bool :=
  if patternSegs.length > candidateSegs.length then false
  else matchSegsLoop patternSegs candidateSegs

/-- Mirror of Go `wildcardMatch`. -/
def wildcardMatch (candidate pattern : GtsID) : Bool :=
  if ¬ containsChar pattern.id '*' then
    matchSegments pattern.segments candidate.segments
  else if countChar '*' pattern.id > 1 ∨ ¬ hasSfx ['*'] pattern.id then
    false
  else
    matchSegments pattern.segments candidate.segments

/-- Mirror of Go `MatchIDResult` (the `Match` field is `isMatch` here since
`match` is a Lean keyword). -/
structure MatchIDResult where
  candidate : String
  pattern : String
  isMatch : Bool
  errMsg : String
deriving Repr, DecidableEq

/-! ## UUID derivation (`gts.go`: `GtsNamespace`, `ToUUID`)

`uuid.NewSHA1(space, data)` of the google/uuid library is the RFC 4122
version-5 construction: the first 16 bytes of `SHA1(space.bytes ++ data)`
with the version nibble forced to `5` and the variant bits to `10`.
SHA-1 is embedded below over byte lists (`Nat` values `< 256`). -/

/-- Truncate to a 32-bit word. -/
def mask32 (x : Nat) : Nat := x &&& 0xFFFFFFFF

/-- 32-bit left rotation. -/
def rotl32 (s x : Nat) : Nat := mask32 ((x <<< s) ||| (x >>> (32 - s)))

/-- SHA-1 padding: append `0x80`, zero bytes to 56 mod 64, then the bit
length as 8 big-endian bytes. -/
def sha1Pad (msg : List Nat) : List Nat :=
  let ml := msg.length * 8
  let zeros := (119 - msg.length % 64) % 64
  msg ++ [0x80] ++ List.replicate zeros 0 ++
    [(ml >>> 56) &&& 0xFF, (ml >>> 48) &&& 0xFF, (ml >>> 40) &&& 0xFF,
     (ml >>> 32) &&& 0xFF, (ml >>> 24) &&& 0xFF, (ml >>> 16) &&& 0xFF,
     (ml >>> 8) &&& 0xFF, ml &&& 0xFF]

/-- Group bytes into big-endian 32-bit words. -/
def bytesToWords : List Nat → List Nat
  | b0 :: b1 :: b2 :: b3 :: rest =>
    ((b0 <<< 24) ||| (b1 <<< 16) ||| (b2 <<< 8) ||| b3) :: bytesToWords rest
  | _ => []

/-- Extend a reversed 16-word chunk to the reversed 80-word message
schedule. -/
def sha1Schedule : Nat → List Nat → List Nat
  | 0, acc => acc
  | n + 1, acc =>
    let w := rotl32 1 ((acc.getD 2 0) ^^^ (acc.getD 7 0) ^^^
      (acc.getD 13 0) ^^^ (acc.getD 15 0))
    sha1Schedule n (w :: acc)

/-- One round of the SHA-1 compression function. -/
def sha1Round (t : Nat) (st : Nat × Nat × Nat × Nat × Nat) (w : Nat) :
    Nat × Nat × Nat × Nat × Nat :=
  let (a, b, c, d, e) := st
  let f :=
    if t < 20 then (b &&& c) ||| ((b ^^^ 0xFFFFFFFF) &&& d)
    else if t < 40 then b ^^^ c ^^^ d
    else if t < 60 then (b &&& c) ||| (b &&& d) ||| (c &&& d)
    else b ^^^ c ^^^ d
  let k :=
    if t < 20 then 0x5A827999
    else if t < 40 then 0x6ED9EBA1
    else if t < 60 then 0x8F1BBCDC
    else 0xCA62C1D6
  let temp := mask32 (rotl32 5 a + f + e + k + w)
  (temp, a, rotl32 30 b, c, d)

/-- Run the 80 compression rounds over the schedule. -/
def sha1Rounds : Nat → Nat × Nat × Nat × Nat × Nat → List Nat →
    Nat × Nat × Nat × Nat × Nat
  | _, st, [] => st
  | t, st, w :: ws => sha1Rounds (t + 1) (sha1Round t st w) ws

/-- Group a word list into 16-word chunks (the padded message is always a
multiple of 16 words long). -/
def chunk16 : List Nat → List (List Nat)
  | w0 :: w1 :: w2 :: w3 :: w4 :: w5 :: w6 :: w7 ::
    w8 :: w9 :: w10 :: w11 :: w12 :: w13 :: w14 :: w15 :: rest =>
    [w0, w1, w2, w3, w4, w5, w6, w7, w8, w9, w10, w11, w12, w13, w14, w15] ::
      chunk16 rest
  | _ => []

/-- Process one 16-word chunk. -/
def sha1Chunk (chunk : List Nat) (st : Nat × Nat × Nat × Nat × Nat) :
    Nat × Nat × Nat × Nat × Nat :=
  let (h0, h1, h2, h3, h4) := st
  let schedule := (sha1Schedule 64 chunk.reverse).reverse
  let (a, b, c, d, e) := sha1Rounds 0 (h0, h1, h2, h3, h4) schedule
  (mask32 (h0 + a), mask32 (h1 + b), mask32 (h2 + c),
   mask32 (h3 + d), mask32 (h4 + e))

/-- Fold the compression function over the chunks. -/
def sha1Chunks : List (List Nat) → Nat × Nat × Nat × Nat × Nat →
    Nat × Nat × Nat × Nat × Nat
  | [], st => st
  | c :: cs, st => sha1Chunks cs (sha1Chunk c st)

/-- Big-endian bytes of a 32-bit word. -/
def wordBytes (w : Nat) : List Nat :=
  [(w >>> 24) &&& 0xFF, (w >>> 16) &&& 0xFF, (w >>> 8) &&& 0xFF, w &&& 0xFF]

/-- SHA-1 digest (20 bytes) of a byte list. -/
def sha1 (msg : List Nat) : List Nat :=
  let (h0, h1, h2, h3, h4) :=
    sha1Chunks (chunk16 (bytesToWords (sha1Pad msg)))
      (0x67452301, 0xEFCDAB89, 0x98BADCFE, 0x10325476, 0xC3D2E1F0)
  wordBytes h0 ++ wordBytes h1 ++ wordBytes h2 ++ wordBytes h3 ++ wordBytes h4

/-- RFC 4122 UUIDv5 (`uuid.NewSHA1`): first 16 digest bytes with version
and variant bits forced. -/
def uuid5 (space data : List Nat) : List Nat :=
  let h := (sha1 (space ++ data)).take 16
  h.mapIdx (fun i b =>
    if i = 6 then (b &&& 0x0F) ||| 0x50
    else if i = 8 then (b &&& 0x3F) ||| 0x80
    else b)

/-- Bytes of `uuid.NameSpaceURL` (`6ba7b811-9dad-11d1-80b4-00c04fd430c8`). -/
def urlNamespaceBytes : List Nat :=
  [0x6b, 0xa7, 0xb8, 0x11, 0x9d, 0xad, 0x11, 0xd1,
   0x80, 0xb4, 0x00, 0xc0, 0x4f, 0xd4, 0x30, 0xc8]

/-- ASCII bytes of a character list. -/
def charBytes (l : List Char) : List Nat := l.map (fun c => c.toNat)

/-- Mirror of Go `GtsNamespace = uuid.NewSHA1(uuid.NameSpaceURL, []byte("gts"))`. -/
def GtsNamespace : List Nat := uuid5 urlNamespaceBytes (charBytes ['g', 't', 's'])

/-- Mirror of Go `(g *GtsID) ToUUID() = uuid.NewSHA1(GtsNamespace, []byte(g.ID))`. -/
def ToUUID (g : GtsID) : List Nat := uuid5 GtsNamespace (charBytes g.id)

/-- Bytes of `de567dcc-10ef-597d-8f82-3c999ed9b979`, the fixture UUID for
`gts.x.test5.events.type.v1~`. -/
def uuidFixtureBytes : List Nat :=
  [0xde, 0x56, 0x7d, 0xcc, 0x10, 0xef, 0x59, 0x7d,
   0x8f, 0x82, 0x3c, 0x99, 0x9e, 0xd9, 0xb9, 0x79]

/-- Mirror of Go `MatchIDPattern`. -/
def MatchIDPattern (candidate pattern : String) : MatchIDResult :=
  let candRes :=
    if containsChar candidate.toList '*' then
      match validateWildcard candidate.toList with
      | .error e => .error e
      | .ok g => .ok g
    else
      match NewGtsID candidate.toList with
      | .error _ => Except.error "invalid id"
      | .ok g => Except.ok g
  match candRes with
  | .error e =>
    { candidate := candidate, pattern := pattern, isMatch := false, errMsg := e }
  | .ok candidateID =>
    match validateWildcard pattern.toList with
    | .error e =>
      { candidate := candidate, pattern := pattern, isMatch := false, errMsg := e }
    | .ok patternID =>
      { candidate := candidate, pattern := pattern,
        isMatch := wildcardMatch candidateID patternID, errMsg := "" }

/-! ## JSON documents

Go's deserialized `any` values become `Json`; `map[string]any` becomes an
association list (`JObj`).  Go map writes are `jInsert` (replace or
append), deletes are `jRemove`, and lookups are `jLookup`. -/

inductive Json where
  | null : Json
  | bool : Bool → Json
  | num : Rat → Json
  | str : String → Json
  | arr : List Json → Json
  | obj : List (String × Json) → Json
deriving Repr

abbrev JObj := List (String × Json)

def jLookup : JObj → String → Option Json
  | [], _ => none
  | (k, v) :: rest, key => if k = key then some v else jLookup rest key

def jContains (o : JObj) (key : String) : Bool := (jLookup o key).isSome

/-- Go map assignment `m[k] = v`. -/
def jInsert : JObj → String → Json → JObj
  | [], k, v => [(k, v)]
  | (k', v') :: rest, k, v =>
    if k' = k then (k, v) :: rest else (k', v') :: jInsert rest k v

/-- Go map `delete(m, k)`. -/
def jRemove (o : JObj) (key : String) : JObj := o.filter (fun p => p.1 ≠ key)

/-! ## Compatibility helpers (`compatibility_helpers.go`)

Go `map[string]bool` sets are modelled as duplicate-free `List String`
(insertion order, which only matters through the sorted set operations). -/

def setInsert (s : List String) (x : String) : List String :=
  if s.contains x then s else s ++ [x]

/-- Mirror of Go `getPropertiesMap`. -/
def getPropertiesMap (schema : JObj) : JObj :=
  match jLookup schema "properties" with
  | some (.obj props) => props
  | _ => []

/-- Mirror of Go `getRequiredSet`. -/
def getRequiredSet (schema : JObj) : List String :=
  match jLookup schema "required" with
  | some (.arr items) =>
    items.foldl
      (fun acc i =>
        match i with
        | .str s => setInsert acc s
        | _ => acc) []
  | _ => []

/-- Mirror of Go `getString`. -/
def getString (m : JObj) (key : String) : String :=
  match jLookup m key with
  | some (.str s) => s
  | _ => ""

/-- Mirror of Go `getMap`. -/
def getMap (m : JObj) (key : String) : Option JObj :=
  match jLookup m key with
  | some (.obj o) => some o
  | _ => none

/-- Mirror of Go `getNumber` (float64/int/int64 all land in `Json.num`). -/
def getNumber (m : JObj) (key : String) : Option Rat :=
  match jLookup m key with
  | some (.num q) => some q
  | _ => none

/-- Mirror of Go `getStringSlice`. -/
def getStringSlice (m : JObj) (key : String) : List String :=
  match jLookup m key with
  | some (.arr items) =>
    items.foldl
      (fun acc i =>
        match i with
        | .str s => acc ++ [s]
        | _ => acc) []
  | _ => []

/-- Mirror of Go `getKeys`. -/
def getKeys (m : JObj) : List String := m.foldl (fun acc p => setInsert acc p.1) []

/-- Bytewise lexicographic comparison, as Go compares strings. -/
def strLeList : List Char → List Char → Bool
  | [], _ => true
  | _ :: _, [] => false
  | a :: as, b :: bs =>
    if a.toNat < b.toNat then true
    else if b.toNat < a.toNat then false
    else strLeList as bs

/-- Go string `<=`. -/
def strLe (a b : String) : Bool := strLeList a.toList b.toList

/-- Insertion into a sorted string list (for Go `sort.Strings`). -/
def insertStr (x : String) : List String → List String
  | [] => [x]
  | y :: ys => if strLe x y then x :: y :: ys else y :: insertStr x ys

/-- Go `sort.Strings`. -/
def sortStrings (l : List String) : List String := l.foldr insertStr []

/-- Mirror of Go `setDifference` (elements of `a` not in `b`, sorted). -/
def setDifference (a b : List String) : List String :=
  sortStrings (a.filter (fun k => ¬ b.contains k))

/-- Mirror of Go `setIntersection` (sorted). -/
def setIntersection (a b : List String) : List String :=
  sortStrings (a.filter (fun k => b.contains k))

/-- Mirror of Go `joinStrings`. -/
def joinStrings (strs : List String) : String := String.intercalate ", " strs

/-- Mirror of Go `stringSliceToSet`. -/
def stringSliceToSet (slice : List String) : List String := slice.foldl setInsert []

/-- Mirror of Go `floatToString` (`%.10f`, trailing zeros and dot trimmed;
rounding differences beyond 10 fractional digits only affect message text). -/
def floatToString (q : Rat) : String :=
  let neg := q < 0
  let aq : Rat := if neg then -q else q
  let scaled : Int := (aq * (10 ^ 10 : Rat) + 1 / 2).floor
  let ip := scaled / (10 ^ 10 : Int)
  let fp := scaled % (10 ^ 10 : Int)
  let fracDigits := ((toString (fp + 10 ^ 10)).toList.drop 1).reverse.dropWhile
    (fun c => c = '0') |>.reverse
  (if neg then "-" else "") ++ toString ip ++
    (if fracDigits = [] then "" else "." ++ String.mk fracDigits)

/-! ## Size lemmas used by the termination arguments below -/

theorem sizeOf_mem_list {α : Type} [SizeOf α] {x : α} {l : List α}
    (h : x ∈ l) : sizeOf x < sizeOf l := by
  induction l with
  | nil => cases h
  | cons y ys ih =>
    rcases List.mem_cons.mp h with h | h
    · subst h
      simp only [List.cons.sizeOf_spec]
      omega
    · have := ih h
      simp only [List.cons.sizeOf_spec]
      omega

theorem sizeOf_jLookup {o : JObj} {k : String} {v : Json}
    (h : jLookup o k = some v) : sizeOf v < sizeOf o := by
  induction o with
  | nil => simp [jLookup] at h
  | cons p rest ih =>
    obtain ⟨k', v'⟩ := p
    by_cases hk : k' = k
    · simp [jLookup, hk] at h
      subst h
      simp only [List.cons.sizeOf_spec, Prod.mk.sizeOf_spec]
      omega
    · simp [jLookup, hk] at h
      have := ih h
      simp only [List.cons.sizeOf_spec]
      omega

theorem sizeOf_mem_obj {k : String} {v : Json} {o : JObj}
    (h : (k, v) ∈ o) : sizeOf v < sizeOf o := by
  have h1 : sizeOf (k, v) < sizeOf o := sizeOf_mem_list h
  simp only [Prod.mk.sizeOf_spec] at h1
  omega

theorem sizeOf_mem_getPropertiesMap {p : String} {v : Json} {s : JObj}
    (h : (p, v) ∈ getPropertiesMap s) : sizeOf v < sizeOf s := by
  unfold getPropertiesMap at h
  rcases hl : jLookup s "properties" with _ | w <;> rw [hl] at h
  · simp at h
  · have hw := sizeOf_jLookup hl
    cases w with
    | obj props =>
      simp only [] at h
      have hv := sizeOf_mem_obj h
      simp only [Json.obj.sizeOf_spec] at hw
      omega
    | null => simp at h
    | bool b => simp at h
    | num q => simp at h
    | str t => simp at h
    | arr xs => simp at h

theorem jLookup_mem {o : JObj} {k : String} {v : Json}
    (h : jLookup o k = some v) : (k, v) ∈ o := by
  induction o with
  | nil => simp [jLookup] at h
  | cons p rest ih =>
    obtain ⟨k', v'⟩ := p
    by_cases hk : k' = k
    · simp [jLookup, hk] at h
      subst hk
      subst h
      exact List.mem_cons_self _ _
    · simp [jLookup, hk] at h
      exact List.mem_cons_of_mem _ (ih h)

theorem sizeOf_jLookup_getPropertiesMap {p : String} {v : Json} {s : JObj}
    (h : jLookup (getPropertiesMap s) p = some v) : sizeOf v < sizeOf s :=
  sizeOf_mem_getPropertiesMap (jLookup_mem h)

/-! ## Schema flattening (`flattenSchema`) -/

/-- Go's `for k, v := range props { resultProps[k] = v }`. -/
def mergeProps (dst src : JObj) : JObj :=
  src.foldl (fun acc p => jInsert acc p.1 p.2) dst

/-- Accumulator of `flattenSchema`'s `allOf` loop: merged properties,
appended `required` entries, and the last `additionalProperties` seen. -/
abbrev FlattenAcc := JObj × List Json × Option Json

mutual

/-- Mirror of Go `flattenSchema`: merge an `allOf` composition (recursively
flattened) with the schema's direct `properties` / `required` /
`additionalProperties`. -/
def flattenSchema (schema : JObj) : JObj :=
  let acc : FlattenAcc :=
    match hlook : jLookup schema "allOf" with
    | some (.arr items) => flattenAllOf items ([], [], none)
    | _ => ([], [], none)
  let props :=
    match jLookup schema "properties" with
    | some (.obj dprops) => mergeProps acc.1 dprops
    | _ => acc.1
  let req :=
    match jLookup schema "required" with
    | some (.arr dreq) => acc.2.1 ++ dreq
    | _ => acc.2.1
  let addProps :=
    match jLookup schema "additionalProperties" with
    | some v => some v
    | none => acc.2.2
  match addProps with
  | some v =>
    [("properties", Json.obj props), ("required", Json.arr req),
     ("additionalProperties", v)]
  | none => [("properties", Json.obj props), ("required", Json.arr req)]
termination_by sizeOf schema
decreasing_by
  have h1 := sizeOf_jLookup hlook
  simp only [Json.arr.sizeOf_spec] at h1
  omega

/-- The `allOf` loop of `flattenSchema`, merging each flattened sub-schema
into the accumulator in order. -/
def flattenAllOf (items : List Json) (acc : FlattenAcc) : FlattenAcc :=
  match items with
  | [] => acc
  | item :: rest =>
    match item with
    | .obj sub =>
      let flat := flattenSchema sub
      let fProps :=
        match jLookup flat "properties" with
        | some (.obj p) => p
        | _ => []
      let fReq :=
        match jLookup flat "required" with
        | some (.arr r) => r
        | _ => []
      let fAdd := jLookup flat "additionalProperties"
      flattenAllOf rest
        (mergeProps acc.1 fProps, acc.2.1 ++ fReq,
         match fAdd with
         | some v => some v
         | none => acc.2.2)
    | _ => flattenAllOf rest acc
termination_by sizeOf items
decreasing_by
  · simp only [List.cons.sizeOf_spec, Json.obj.sizeOf_spec]
    omega
  · simp only [List.cons.sizeOf_spec]
    omega
  · simp only [List.cons.sizeOf_spec]
    omega

end

theorem mem_jInsert {o : JObj} {k k' : String} {v v' : Json}
    (h : (k, v) ∈ jInsert o k' v') : (k, v) ∈ o ∨ (k = k' ∧ v = v') := by
  induction o with
  | nil =>
    simp [jInsert] at h
    exact Or.inr h
  | cons q rest ih =>
    obtain ⟨qk, qv⟩ := q
    by_cases hk : qk = k'
    · simp [jInsert, hk] at h
      rcases h with ⟨h1, h2⟩ | h
      · exact Or.inr ⟨h1, h2⟩
      · exact Or.inl (List.mem_cons_of_mem _ h)
    · simp only [jInsert, if_neg hk] at h
      rcases List.mem_cons.mp h with h | h
      · exact Or.inl (h ▸ List.mem_cons_self _ _)
      · rcases ih h with h2 | h2
        · exact Or.inl (List.mem_cons_of_mem _ h2)
        · exact Or.inr h2

theorem mem_mergeProps {dst src : JObj} {k : String} {v : Json}
    (h : (k, v) ∈ mergeProps dst src) : (k, v) ∈ dst ∨ (k, v) ∈ src := by
  induction src generalizing dst with
  | nil => exact Or.inl h
  | cons q rest ih =>
    obtain ⟨qk, qv⟩ := q
    have h1 : mergeProps dst ((qk, qv) :: rest) = mergeProps (jInsert dst qk qv) rest := rfl
    rw [h1] at h
    rcases ih h with h2 | h2
    · rcases mem_jInsert h2 with h3 | ⟨h3, h4⟩
      · exact Or.inl h3
      · subst h3; subst h4
        exact Or.inr (List.mem_cons_self _ _)
    · exact Or.inr (List.mem_cons_of_mem _ h2)

theorem mem_getProps_flatten {s : JObj} {p : String} {v : Json}
    (h : (p, v) ∈ getPropertiesMap (flattenSchema s)) :
    (∃ items, jLookup s "allOf" = some (Json.arr items) ∧
        (p, v) ∈ (flattenAllOf items ([], [], none)).1) ∨
    (∃ dprops, jLookup s "properties" = some (Json.obj dprops) ∧ (p, v) ∈ dprops) := by
  rw [flattenSchema] at h
  split at h <;>
    (rename_i hadd
     simp only [getPropertiesMap, jLookup] at h
     norm_num at h) <;>
  · revert h
    split
    · rename_i dprops hprops
      intro h
      rcases mem_mergeProps h with h2 | h2
      · revert h2
        split
        · rename_i items hitems
          intro h2
          exact Or.inl ⟨items, hitems, h2⟩
        · intro h2
          simp at h2
      · exact Or.inr ⟨dprops, hprops, h2⟩
    · intro h
      revert h
      split
      · rename_i items hitems
        intro h2
        exact Or.inl ⟨items, hitems, h2⟩
      · intro h2
        simp at h2

theorem mem_flattenAllOf {items : List Json} {acc : FlattenAcc} {p : String}
    {v : Json} (h : (p, v) ∈ (flattenAllOf items acc).1) :
    (p, v) ∈ acc.1 ∨
    ∃ sub : JObj, Json.obj sub ∈ items ∧
      (p, v) ∈ getPropertiesMap (flattenSchema sub) := by
  induction items generalizing acc with
  | nil =>
    rw [flattenAllOf] at h
    exact Or.inl h
  | cons item rest ih =>
    cases item with
    | obj sub =>
      rw [flattenAllOf] at h
      rcases ih h with h2 | ⟨sub2, hmem, hprops⟩
      · rcases mem_mergeProps h2 with h3 | h3
        · exact Or.inl h3
        · exact Or.inr ⟨sub, List.mem_cons_self _ _, h3⟩
      · exact Or.inr ⟨sub2, List.mem_cons_of_mem _ hmem, hprops⟩
    | null =>
      simp only [flattenAllOf] at h
      rcases ih h with h2 | ⟨sub2, hmem, hprops⟩
      · exact Or.inl h2
      · exact Or.inr ⟨sub2, List.mem_cons_of_mem _ hmem, hprops⟩
    | bool b =>
      simp only [flattenAllOf] at h
      rcases ih h with h2 | ⟨sub2, hmem, hprops⟩
      · exact Or.inl h2
      · exact Or.inr ⟨sub2, List.mem_cons_of_mem _ hmem, hprops⟩
    | num n =>
      simp only [flattenAllOf] at h
      rcases ih h with h2 | ⟨sub2, hmem, hprops⟩
      · exact Or.inl h2
      · exact Or.inr ⟨sub2, List.mem_cons_of_mem _ hmem, hprops⟩
    | str t =>
      simp only [flattenAllOf] at h
      rcases ih h with h2 | ⟨sub2, hmem, hprops⟩
      · exact Or.inl h2
      · exact Or.inr ⟨sub2, List.mem_cons_of_mem _ hmem, hprops⟩
    | arr xs =>
      simp only [flattenAllOf] at h
      rcases ih h with h2 | ⟨sub2, hmem, hprops⟩
      · exact Or.inl h2
      · exact Or.inr ⟨sub2, List.mem_cons_of_mem _ hmem, hprops⟩

theorem sizeOf_mem_flattenProps :
    ∀ (n : Nat) (s : JObj), sizeOf s ≤ n →
      ∀ (p : String) (v : Json),
        (p, v) ∈ getPropertiesMap (flattenSchema s) → sizeOf v < sizeOf s := by
  intro n
  induction n using Nat.strong_induction_on with
  | _ n IH =>
    intro s hs p v hmem
    rcases mem_getProps_flatten hmem with ⟨items, hall, hin⟩ | ⟨dprops, hdp, hin⟩
    · rcases mem_flattenAllOf hin with h2 | ⟨sub, hsub, hprops⟩
      · simp at h2
      · have h3 : sizeOf (Json.obj sub) < sizeOf items := sizeOf_mem_list hsub
        have h4 := sizeOf_jLookup hall
        simp only [Json.arr.sizeOf_spec, Json.obj.sizeOf_spec] at h3 h4
        have h5 : sizeOf sub < n := by omega
        have h6 := IH (sizeOf sub) h5 sub le_rfl p v hprops
        omega
    · have h3 := sizeOf_mem_obj hin
      have h4 := sizeOf_jLookup hdp
      simp only [Json.obj.sizeOf_spec] at h4
      omega

/-- Values looked up in the flattened property map are smaller than the
schema they came from: the termination measure for
`checkSchemaCompatibility`. -/
theorem sizeOf_flattenProps {s : JObj} {p : String} {v : Json}
    (h : jLookup (getPropertiesMap (flattenSchema s)) p = some v) :
    sizeOf v < sizeOf s :=
  sizeOf_mem_flattenProps (sizeOf s) s le_rfl p v (jLookup_mem h)

/-! ## Compatibility engine (`checkSchemaCompatibility` and friends)

A Go unchecked type assertion (`oldProps[prop].(map[string]any)`) panics
when the property value is not an object; that abnormal termination is
modelled as `Option.none`, which propagates. -/

/-- Mirror of Go `checkMinMaxConstraint`. -/
def checkMinMaxConstraint (prop : String) (oldSchema newSchema : JObj)
    (minKey maxKey : String) (checkTightening : Bool) : List String :=
  let oldMin := getNumber oldSchema minKey
  let newMin := getNumber newSchema minKey
  let oldMax := getNumber oldSchema maxKey
  let newMax := getNumber newSchema maxKey
  let minErrs :=
    if checkTightening then
      match oldMin, newMin with
      | some o, some n =>
        if n > o then
          ["Property '" ++ prop ++ "' " ++ minKey ++ " increased from " ++
            floatToString o ++ " to " ++ floatToString n]
        else []
      | none, some n =>
        ["Property '" ++ prop ++ "' added " ++ minKey ++ " constraint: " ++
          floatToString n]
      | _, _ => []
    else
      match oldMin, newMin with
      | some o, some n =>
        if n < o then
          ["Property '" ++ prop ++ "' " ++ minKey ++ " decreased from " ++
            floatToString o ++ " to " ++ floatToString n]
        else []
      | some _, none => ["Property '" ++ prop ++ "' removed " ++ minKey ++ " constraint"]
      | _, _ => []
  let maxErrs :=
    if checkTightening then
      match oldMax, newMax with
      | some o, some n =>
        if n < o then
          ["Property '" ++ prop ++ "' " ++ maxKey ++ " decreased from " ++
            floatToString o ++ " to " ++ floatToString n]
        else []
      | none, some n =>
        ["Property '" ++ prop ++ "' added " ++ maxKey ++ " constraint: " ++
          floatToString n]
      | _, _ => []
    else
      match oldMax, newMax with
      | some o, some n =>
        if n > o then
          ["Property '" ++ prop ++ "' " ++ maxKey ++ " increased from " ++
            floatToString o ++ " to " ++ floatToString n]
        else []
      | some _, none => ["Property '" ++ prop ++ "' removed " ++ maxKey ++ " constraint"]
      | _, _ => []
  minErrs ++ maxErrs

/-- Mirror of Go `checkConstraintCompatibility` (the bound pair is selected
by the OLD property schema's declared `type`). -/
def checkConstraintCompatibility (prop : String)
    (oldPropSchema newPropSchema : JObj) (checkTightening : Bool) : List String :=
  let propType := getString oldPropSchema "type"
  (if propType = "number" ∨ propType = "integer" then
    checkMinMaxConstraint prop oldPropSchema newPropSchema "minimum" "maximum"
      checkTightening
  else []) ++
  (if propType = "string" then
    checkMinMaxConstraint prop oldPropSchema newPropSchema "minLength" "maxLength"
      checkTightening
  else []) ++
  (if propType = "array" then
    checkMinMaxConstraint prop oldPropSchema newPropSchema "minItems" "maxItems"
      checkTightening
  else [])

theorem sizeOf_getMap {m : JObj} {k : String} {o : JObj}
    (h : getMap m k = some o) : sizeOf o < sizeOf m := by
  unfold getMap at h
  rcases hj : jLookup m k with _ | w <;> rw [hj] at h
  · simp at h
  · cases w <;> simp at h
    rename_i oo
    subst h
    have h2 := sizeOf_jLookup hj
    simp only [Json.obj.sizeOf_spec] at h2
    omega

mutual

/-- Mirror of Go `checkSchemaCompatibility`; `none` models the panic on a
non-object property value. -/
def checkSchemaCompatibility (oldSchema newSchema : JObj) (checkBackward : Bool) :
    Option (Bool × List String) :=
  let oldFlat := flattenSchema oldSchema
  let newFlat := flattenSchema newSchema
  let oldProps := getPropertiesMap oldFlat
  let newProps := getPropertiesMap newFlat
  let oldRequired := getRequiredSet oldFlat
  let newRequired := getRequiredSet newFlat
  let reqErrs :=
    if checkBackward then
      let newlyRequired := setDifference newRequired oldRequired
      if newlyRequired.length > 0 then
        ["Added required properties: " ++ joinStrings newlyRequired]
      else []
    else
      let removedRequired := setDifference oldRequired newRequired
      if removedRequired.length > 0 then
        ["Removed required properties: " ++ joinStrings removedRequired]
      else []
  let commonProps := setIntersection (getKeys oldProps) (getKeys newProps)
  match checkCompatProps oldSchema newSchema checkBackward commonProps with
  | none => none
  | some propErrs =>
    let errs := reqErrs ++ propErrs
    some (errs.isEmpty, errs)
termination_by (sizeOf oldSchema, 1, 0)
decreasing_by
  exact Prod.Lex.right _ (Prod.Lex.left _ _ (by omega))

/-- The common-property loop of `checkSchemaCompatibility`.  The flattened
property maps are recomputed from the two schemas at each step, which is
semantically the Go loop over `commonProps` (pure lookups), and ties the
recursion to a decreasing measure on `oldSchema`. -/
def checkCompatProps (oldSchema newSchema : JObj) (checkBackward : Bool) :
    List String → Option (List String)
  | [] => some []
  | prop :: rest =>
    let oldProps := getPropertiesMap (flattenSchema oldSchema)
    let newProps := getPropertiesMap (flattenSchema newSchema)
    match hOld : jLookup oldProps prop with
    | some (.obj oldPropSchema) =>
      match hNew : jLookup newProps prop with
      | some (.obj newPropSchema) =>
        let oldType := getString oldPropSchema "type"
        let newType := getString newPropSchema "type"
        let typeErrs :=
          if oldType ≠ "" ∧ newType ≠ "" ∧ oldType ≠ newType then
            ["Property '" ++ prop ++ "' type changed from " ++ oldType ++
              " to " ++ newType]
          else []
        let oldEnum := getStringSlice oldPropSchema "enum"
        let newEnum := getStringSlice newPropSchema "enum"
        let enumErrs :=
          if oldEnum.length > 0 ∧ newEnum.length > 0 then
            let oldEnumSet := stringSliceToSet oldEnum
            let newEnumSet := stringSliceToSet newEnum
            if checkBackward then
              let addedEnumValues := setDifference newEnumSet oldEnumSet
              if addedEnumValues.length > 0 then
                ["Property '" ++ prop ++ "' added enum values: " ++
                  joinStrings addedEnumValues]
              else []
            else
              let removedEnumValues := setDifference oldEnumSet newEnumSet
              if removedEnumValues.length > 0 then
                ["Property '" ++ prop ++ "' removed enum values: " ++
                  joinStrings removedEnumValues]
              else []
          else []
        let constraintErrs :=
          checkConstraintCompatibility prop oldPropSchema newPropSchema checkBackward
        let nestedRes :=
          if oldType = "object" ∧ newType = "object" then
            match checkSchemaCompatibility oldPropSchema newPropSchema checkBackward with
            | none => none
            | some (nestedCompat, nestedErrs) =>
              if ¬ nestedCompat then
                some (nestedErrs.map (fun e => "Property '" ++ prop ++ "': " ++ e))
              else some []
          else some []
        match nestedRes with
        | none => none
        | some nestedPrefixed =>
          let arrRes :=
            if oldType = "array" ∧ newType = "array" then
              match hOldItems : getMap oldPropSchema "items" with
              | some oldItems =>
                match getMap newPropSchema "items" with
                | some newItems =>
                  match checkSchemaCompatibility oldItems newItems checkBackward with
                  | none => none
                  | some (itemsCompat, itemsErrs) =>
                    if ¬ itemsCompat then
                      some (itemsErrs.map
                        (fun e => "Property '" ++ prop ++ "' array items: " ++ e))
                    else some []
                | none => some []
              | none => some []
            else some []
          match arrRes with
          | none => none
          | some arrPrefixed =>
            match checkCompatProps oldSchema newSchema checkBackward rest with
            | none => none
            | some restErrs =>
              some (typeErrs ++ enumErrs ++ constraintErrs ++ nestedPrefixed ++
                arrPrefixed ++ restErrs)
      | _ => none
    | _ => none
termination_by x => (sizeOf oldSchema, 0, x.length)
decreasing_by
  · have h1 := sizeOf_flattenProps hOld
    simp only [Json.obj.sizeOf_spec] at h1
    exact Prod.Lex.left _ _ (by omega)
  · have h1 := sizeOf_flattenProps hOld
    simp only [Json.obj.sizeOf_spec] at h1
    have h2 := sizeOf_getMap hOldItems
    exact Prod.Lex.left _ _ (by omega)
  · exact Prod.Lex.right _ (Prod.Lex.right _
      (by simp only [List.length_cons]; omega))

end

/-- Mirror of Go `checkBackwardCompatibility`. -/
def checkBackwardCompatibility (oldSchema newSchema : JObj) :
    Option (Bool × List String) :=
  checkSchemaCompatibility oldSchema newSchema true

/-- Mirror of Go `checkForwardCompatibility`. -/
def checkForwardCompatibility (oldSchema newSchema : JObj) :
    Option (Bool × List String) :=
  checkSchemaCompatibility oldSchema newSchema false

/-- Mirror of Go `inferDirection`. -/
def inferDirection (fromID toID : String) : String :=
  match NewGtsID fromID.toList, NewGtsID toID.toList with
  | .ok fromGtsID, .ok toGtsID =>
    match fromGtsID.segments.getLast?, toGtsID.segments.getLast? with
    | some fromSeg, some toSeg =>
      match fromSeg.verMinor, toSeg.verMinor with
      | some fm, some tm =>
        if tm > fm then "up"
        else if tm < fm then "down"
        else "none"
      | _, _ => "unknown"
    | _, _ => "unknown"
  | _, _ => "unknown"

/-! ## Cast engine (`castInstanceToSchema` and friends) -/

/-- Mirror of Go `getAdditionalProperties` (defaults to `true`). -/
def getAdditionalProperties (schema : JObj) : Bool :=
  match jLookup schema "additionalProperties" with
  | some (.bool b) => b
  | _ => true

/-- Mirror of Go `buildPath`. -/
def buildPath (base prop : String) : String :=
  if base = "" then prop
  else if prop.startsWith "[" then base ++ prop
  else base ++ "." ++ prop

/-- Mirror of Go `deduplicate` (drop duplicates, then sort). -/
def deduplicate (slice : List String) : List String :=
  sortStrings (slice.foldl setInsert [])

mutual

/-- Mirror of Go `copyValue`. -/
def copyValue : Json → Json
  | .null => .null
  | .bool b => .bool b
  | .num q => .num q
  | .str s => .str s
  | .arr xs => .arr (copyList xs)
  | .obj fs => .obj (copyFields fs)

def copyList : List Json → List Json
  | [] => []
  | x :: xs => copyValue x :: copyList xs

def copyFields : JObj → JObj
  | [] => []
  | (k, v) :: fs => (k, copyValue v) :: copyFields fs

end

/-- Mirror of Go `copyMap` (`nil` in, `nil` out). -/
def copyMap : Option JObj → Option JObj
  | none => none
  | some m => some (copyFields m)

/-- The `allOf` scan of Go `effectiveObjectSchema`: first part declaring
`properties` or `required` wins. -/
def effFindPart : List Json → JObj → JObj
  | [], dflt => dflt
  | (.obj part) :: rest, dflt =>
    if jContains part "properties" || jContains part "required" then part
    else effFindPart rest dflt
  | _ :: rest, dflt => effFindPart rest dflt

/-- Mirror of Go `effectiveObjectSchema`. -/
def effectiveObjectSchema (schema : JObj) : JObj :=
  if jContains schema "properties" then schema
  else if jContains schema "required" then schema
  else
    match jLookup schema "allOf" with
    | some (.arr items) => effFindPart items schema
    | _ => schema

theorem effFindPart_cases (items : List Json) (dflt : JObj) :
    effFindPart items dflt = dflt ∨
    ∃ part : JObj, Json.obj part ∈ items ∧ effFindPart items dflt = part := by
  induction items with
  | nil => exact Or.inl rfl
  | cons item rest ih =>
    cases item with
    | obj part =>
      rw [effFindPart]
      split
      · exact Or.inr ⟨part, List.mem_cons_self _ _, rfl⟩
      · rcases ih with h | ⟨p2, hmem, heq⟩
        · exact Or.inl h
        · exact Or.inr ⟨p2, List.mem_cons_of_mem _ hmem, heq⟩
    | null =>
      simp only [effFindPart]
      rcases ih with h | ⟨p2, hmem, heq⟩
      · exact Or.inl h
      · exact Or.inr ⟨p2, List.mem_cons_of_mem _ hmem, heq⟩
    | bool b =>
      simp only [effFindPart]
      rcases ih with h | ⟨p2, hmem, heq⟩
      · exact Or.inl h
      · exact Or.inr ⟨p2, List.mem_cons_of_mem _ hmem, heq⟩
    | num n =>
      simp only [effFindPart]
      rcases ih with h | ⟨p2, hmem, heq⟩
      · exact Or.inl h
      · exact Or.inr ⟨p2, List.mem_cons_of_mem _ hmem, heq⟩
    | str t =>
      simp only [effFindPart]
      rcases ih with h | ⟨p2, hmem, heq⟩
      · exact Or.inl h
      · exact Or.inr ⟨p2, List.mem_cons_of_mem _ hmem, heq⟩
    | arr xs =>
      simp only [effFindPart]
      rcases ih with h | ⟨p2, hmem, heq⟩
      · exact Or.inl h
      · exact Or.inr ⟨p2, List.mem_cons_of_mem _ hmem, heq⟩

theorem sizeOf_effectiveObjectSchema (schema : JObj) :
    sizeOf (effectiveObjectSchema schema) ≤ sizeOf schema := by
  unfold effectiveObjectSchema
  split
  · exact le_rfl
  · split
    · exact le_rfl
    · split
      · rename_i items hlook
        rcases effFindPart_cases items schema with h | ⟨part, hmem, heq⟩
        · rw [h]
        · rw [heq]
          have h1 : sizeOf (Json.obj part) < sizeOf items := sizeOf_mem_list hmem
          have h2 := sizeOf_jLookup hlook
          simp only [Json.obj.sizeOf_spec, Json.arr.sizeOf_spec] at h1 h2
          omega
      · exact le_rfl

theorem sizeOf_effSchema_of_mem_props {prop : String} {ps : JObj} {schema : JObj}
    (h : (prop, Json.obj ps) ∈ getPropertiesMap schema) :
    sizeOf (effectiveObjectSchema ps) < sizeOf schema := by
  have h1 := sizeOf_mem_getPropertiesMap h
  have h2 := sizeOf_effectiveObjectSchema ps
  simp only [Json.obj.sizeOf_spec] at h1
  omega

/-- Step 1 of `castInstanceToSchema`: ensure required properties exist,
filling defaults when provided (returns result, added paths, diagnostics). -/
def castStep1 (targetProps : JObj) (basePath : String) :
    List String → JObj → JObj × List String × List String
  | [], result => (result, [], [])
  | reqProp :: rest, result =>
    let step : JObj × List String × List String :=
      if ¬ jContains result reqProp then
        match getMap targetProps reqProp with
        | some propSchema =>
          match jLookup propSchema "default" with
          | some defaultVal =>
            (jInsert result reqProp (copyValue defaultVal),
             [buildPath basePath reqProp], [])
          | none =>
            (result, [],
             ["Missing required property '" ++ buildPath basePath reqProp ++
               "' and no default is defined"])
        | none => (result, [], [])
      else (result, [], [])
    let out := castStep1 targetProps basePath rest step.1
    (out.1, step.2.1 ++ out.2.1, step.2.2 ++ out.2.2)

/-- Step 2 of `castInstanceToSchema`: fill defaults of missing optional
properties (returns result and added paths). -/
def castStep2 (required : List String) (basePath : String) :
    JObj → JObj → JObj × List String
  | [], result => (result, [])
  | (prop, propSchemaAny) :: rest, result =>
    let step : JObj × List String :=
      if required.contains prop then (result, [])
      else
        match propSchemaAny with
        | .obj propSchema =>
          if ¬ jContains result prop then
            match jLookup propSchema "default" with
            | some defaultVal =>
              (jInsert result prop (copyValue defaultVal),
               [buildPath basePath prop])
            | none => (result, [])
          else (result, [])
        | _ => (result, [])
    let out := castStep2 required basePath rest step.1
    (out.1, step.2 ++ out.2)

/-- Step 2.5 of `castInstanceToSchema`: re-pin `const` discriminator values
that are GTS identifiers. -/
def castStep25 : JObj → JObj → JObj
  | [], result => result
  | (prop, propSchemaAny) :: rest, result =>
    let result1 :=
      match propSchemaAny with
      | .obj propSchema =>
        match jLookup propSchema "const" with
        | some (.str constStr) =>
          match jLookup result prop with
          | some (.str existingStr) =>
            if IsValidGtsID constStr.toList ∧ IsValidGtsID existingStr.toList then
              if existingStr ≠ constStr then
                jInsert result prop (.str constStr)
              else result
            else result
          | _ => result
        | _ => result
      | _ => result
    castStep25 rest result1

/-- Step 3 of `castInstanceToSchema`: drop properties not declared by the
target when `additionalProperties` is false (returns result and removed
paths). -/
def castStep3 (targetProps : JObj) (basePath : String) :
    JObj → JObj × List String
  | [] => ([], [])
  | (prop, v) :: rest =>
    let out := castStep3 targetProps basePath rest
    if jContains targetProps prop then ((prop, v) :: out.1, out.2)
    else (out.1, buildPath basePath prop :: out.2)

mutual

/-- Mirror of Go `castInstanceToSchema`; `none` input models a `nil`
instance map. -/
def castInstanceToSchema (inst : Option JObj) (schema : JObj) (basePath : String) :
    Option JObj × List String × List String × List String :=
  match inst with
  | none => (none, [], [], ["Instance must be an object for casting"])
  | some instObj =>
    let targetProps := getPropertiesMap schema
    let required := getRequiredSet schema
    let additional := getAdditionalProperties schema
    let result0 := copyFields instObj
    let s1 := castStep1 targetProps basePath required result0
    let s2 := castStep2 required basePath targetProps s1.1
    let r25 := castStep25 targetProps s2.1
    let s3 :=
      if ¬ additional then castStep3 targetProps basePath r25 else (r25, [])
    let s4 := castStep4 schema (getPropertiesMap schema).attach s3.1 basePath
    (some s4.1, s1.2.1 ++ s2.2 ++ s4.2.1, s3.2 ++ s4.2.2.1,
     s1.2.2 ++ s4.2.2.2)
termination_by (sizeOf schema, 2, 0)
decreasing_by
  exact Prod.Lex.right _ (Prod.Lex.left _ _ (by omega))

/-- Step 4 of `castInstanceToSchema`: recurse into declared object
properties and arrays of objects, threading the evolving result map. -/
def castStep4 (schema : JObj)
    (items : List {p : String × Json // p ∈ getPropertiesMap schema})
    (result : JObj) (basePath : String) :
    JObj × List String × List String × List String :=
  match items with
  | [] => (result, [], [], [])
  | ⟨(prop, propSchemaAny), hmem⟩ :: rest =>
    let step :=
      match jLookup result prop with
      | none => (result, [], [], [])
      | some val =>
        match hps : propSchemaAny with
        | .obj propSchema =>
          let propType := getString propSchema "type"
          if propType = "object" then
            match val with
            | .obj valMap =>
              let nestedSchema := effectiveObjectSchema propSchema
              let sub := castInstanceToSchema (some valMap) nestedSchema
                  (buildPath basePath prop)
              (jInsert result prop (Json.obj (sub.1.getD [])),
               sub.2.1, sub.2.2.1, sub.2.2.2)
            | _ => (result, [], [], [])
          else if propType = "array" then
            match val with
            | .arr valArray =>
              match hitems : getMap propSchema "items" with
              | some itemsSchema =>
                if getString itemsSchema "type" = "object" then
                  let nestedSchema := effectiveObjectSchema itemsSchema
                  let sub := castStep4Arr schema nestedSchema
                      (by
                        show sizeOf (effectiveObjectSchema itemsSchema) <
                          sizeOf schema
                        have h1 := sizeOf_mem_getPropertiesMap hmem
                        have h2 := sizeOf_getMap hitems
                        have h3 := sizeOf_effectiveObjectSchema itemsSchema
                        simp only [Json.obj.sizeOf_spec] at h1
                        omega)
                      valArray prop basePath 0
                  (jInsert result prop (Json.arr sub.1),
                   sub.2.1, sub.2.2.1, sub.2.2.2)
                else (result, [], [], [])
              | none => (result, [], [], [])
            | _ => (result, [], [], [])
          else (result, [], [], [])
        | _ => (result, [], [], [])
    let out := castStep4 schema rest step.1 basePath
    (out.1, step.2.1 ++ out.2.1, step.2.2.1 ++ out.2.2.1, step.2.2.2 ++ out.2.2.2)
termination_by (sizeOf schema, 1, items.length)
decreasing_by
  · apply Prod.Lex.left
    show sizeOf (effectiveObjectSchema propSchema) < sizeOf schema
    exact sizeOf_effSchema_of_mem_props hmem
  · exact Prod.Lex.right _ (Prod.Lex.left _ _ (by omega))
  · exact Prod.Lex.right _ (Prod.Lex.right _
      (by simp only [List.length_cons]; omega))

/-- The per-element loop of step 4's array case. -/
def castStep4Arr (schema nestedSchema : JObj)
    (hn : sizeOf nestedSchema < sizeOf schema)
    (elems : List Json) (prop : String) (basePath : String) (idx : Nat) :
    List Json × List String × List String × List String :=
  match elems with
  | [] => ([], [], [], [])
  | item :: rest =>
    let step :=
      match item with
      | .obj itemMap =>
        let sub := castInstanceToSchema (some itemMap) nestedSchema
            (buildPath basePath (prop ++ "[" ++ toString idx ++ "]"))
        (Json.obj (sub.1.getD []), sub.2.1, sub.2.2.1, sub.2.2.2)
      | _ => (item, ([] : List String), ([] : List String), ([] : List String))
    let out := castStep4Arr schema nestedSchema hn rest prop basePath (idx + 1)
    (step.1 :: out.1, step.2.1 ++ out.2.1, step.2.2.1 ++ out.2.2.1,
     step.2.2.2 ++ out.2.2.2)
termination_by (sizeOf schema, 0, elems.length)
decreasing_by
  · exact Prod.Lex.left _ _ hn
  · exact Prod.Lex.right _ (Prod.Lex.right _
      (by simp only [List.length_cons]; omega))

end

/-! ## Store, entities, and the `Cast` operation -/

/-- Mirror of Go `GtsReference`. -/
structure GtsReference where
  id : String
  sourcePath : String
deriving Repr, DecidableEq

/-- The fields of Go `JsonEntity` the core algorithms read.  A `nil`
content map is `none`. -/
structure JsonEntity where
  gtsID : Option GtsID := none
  schemaID : String := ""
  isSchema : Bool := false
  content : Option JObj := none
  gtsRefs : List GtsReference := []

/-- The registry: entities keyed by identifier (`byID`); the bulk-loading
reader fallback of `Get` is out of core scope and modelled as absent. -/
structure GtsStore where
  byID : List (String × JsonEntity)

/-- Mirror of Go `(s *GtsStore) Get` with no reader configured. -/
def storeGet (s : GtsStore) (entityID : String) : Option JsonEntity :=
  match s.byID.find? (fun p => p.1 = entityID) with
  | some p => some p.2
  | none => none

/-- Mirror of Go `CompatibilityResult` (the always-empty
`ChangedProperties` is kept as a list of key/value pair lists). -/
structure CompatibilityResult where
  fromID : String
  toID : String
  oldID : String
  newID : String
  direction : String
  addedProperties : List String
  removedProperties : List String
  changedProperties : List (List (String × String))
  isFullyCompatible : Bool
  isBackwardCompatible : Bool
  isForwardCompatible : Bool
  incompatibilityReasons : List String
  backwardErrors : List String
  forwardErrors : List String

/-- Mirror of Go `CastResult`. -/
structure CastResult where
  compat : CompatibilityResult
  castedEntity : Option JObj

/-- The hard-error taxonomy of Go `Cast` (`StoreGts*Error` types). -/
inductive CastErr where
  | objectNotFound (entityID : String)
  | schemaNotFound (entityID : String)
  | castFromSchemaNotAllowed (fromID : String)
  | schemaForInstanceNotFound (entityID : String)
deriving Repr, DecidableEq

/-- Mirror of Go `castInstance`.  The external JSON-Schema validator
(`validateWithGtsIDTolerance`, out of core scope) is a parameter returning
`some errorMessage` on validation failure; `none` result models a panic
inside the compatibility check. -/
def castInstance (fromInstanceID toSchemaID : String)
    (fromInstanceContent : Option JObj)
    (fromSchemaContent toSchemaContent : JObj)
    (validator : JObj → JObj → Option String) : Option CastResult :=
  let targetSchema := flattenSchema toSchemaContent
  let direction := inferDirection fromInstanceID toSchemaID
  let pair :=
    if direction = "up" then (fromSchemaContent, toSchemaContent)
    else if direction = "down" then (toSchemaContent, fromSchemaContent)
    else (fromSchemaContent, toSchemaContent)
  match checkBackwardCompatibility pair.1 pair.2,
      checkForwardCompatibility pair.1 pair.2 with
  | some backRes, some fwdRes =>
    let cast4 := castInstanceToSchema (copyMap fromInstanceContent) targetSchema ""
    let casted := cast4.1
    let fullAndReasons :=
      match casted with
      | some c =>
        match validator c toSchemaContent with
        | some errMsg => (false, cast4.2.2.2 ++ [errMsg])
        | none => (true, cast4.2.2.2)
      | none => (false, cast4.2.2.2)
    some
      { compat :=
          { fromID := fromInstanceID, toID := toSchemaID,
            oldID := fromInstanceID, newID := toSchemaID,
            direction := direction,
            addedProperties := deduplicate cast4.2.1,
            removedProperties := deduplicate cast4.2.2.1,
            changedProperties := [],
            isFullyCompatible := fullAndReasons.1,
            isBackwardCompatible := backRes.1,
            isForwardCompatible := fwdRes.1,
            incompatibilityReasons := fullAndReasons.2,
            backwardErrors := backRes.2,
            forwardErrors := fwdRes.2 },
        castedEntity := casted }
  | _, _ => none

/-- Mirror of Go `(s *GtsStore) Cast`: precondition checks, then
`castInstance`.  `none` models a panic; otherwise the `Except` carries the
hard error or the result. -/
def Cast (store : GtsStore) (validator : JObj → JObj → Option String)
    (instanceID toSchemaID : String) : Option (Except CastErr CastResult) :=
  match storeGet store instanceID with
  | none => some (.error (.objectNotFound instanceID))
  | some instanceEntity =>
    match storeGet store toSchemaID with
    | none => some (.error (.schemaNotFound toSchemaID))
    | some toSchema =>
      if instanceEntity.isSchema then
        some (.error (.castFromSchemaNotAllowed instanceID))
      else
        let fromSchemaID := instanceEntity.schemaID
        if fromSchemaID = "" then
          some (.error (.schemaForInstanceNotFound instanceID))
        else
          match storeGet store fromSchemaID with
          | none => some (.error (.schemaNotFound fromSchemaID))
          | some fromSchema =>
            match castInstance instanceID toSchemaID instanceEntity.content
                (fromSchema.content.getD []) (toSchema.content.getD [])
                validator with
            | none => none
            | some r => some (.ok r)

/-! ## Relationship-graph resolver (`relationships.go`) -/

/-- Mirror of Go `SchemaGraphNode` (`refs` is the `SourcePath`-keyed map;
an absent/`nil` map is the empty list). -/
inductive SchemaGraphNode where
  | mk (id : String) (refs : List (String × SchemaGraphNode))
      (schemaNode : Option SchemaGraphNode) (errors : List String)

def SchemaGraphNode.id : SchemaGraphNode → String
  | .mk i _ _ _ => i

def SchemaGraphNode.refs : SchemaGraphNode → List (String × SchemaGraphNode)
  | .mk _ r _ _ => r

def SchemaGraphNode.schemaNode : SchemaGraphNode → Option SchemaGraphNode
  | .mk _ _ s _ => s

def SchemaGraphNode.errors : SchemaGraphNode → List String
  | .mk _ _ _ e => e

/-- Mirror of Go `isJSONSchemaURL` (including its off-by-one length
comparisons, under which it never returns true). -/
def isJSONSchemaURL (s : String) : Bool :=
  s.length > 7 &&
    ((s.take 7 = "http://") || (s.take 8 = "https://")) &&
    ((s.length > 22 && s.take 23 = "http://json-schema.org") ||
     (s.length > 23 && s.take 24 = "https://json-schema.org"))

/-- Go map assignment `refs[path] = node`. -/
def refsInsert (refs : List (String × SchemaGraphNode)) (key : String)
    (node : SchemaGraphNode) : List (String × SchemaGraphNode) :=
  match refs with
  | [] => [(key, node)]
  | (k, v) :: rest =>
    if k = key then (key, node) :: rest else (k, v) :: refsInsert rest key node

/-- The identifiers a graph build can ever visit: the store's keys, plus
every reference and schema id an entity mentions, plus the root.  Only used
for the termination measure. -/
def idUniverse (store : GtsStore) (root : String) : Finset String :=
  (store.byID.map (fun p => p.1)).toFinset ∪
  (store.byID.flatMap (fun p => p.2.gtsRefs.map (fun r => r.id))).toFinset ∪
  (store.byID.map (fun p => p.2.schemaID)).toFinset ∪ {root}

/-- Remaining budget of unvisited ids, the graph recursion's measure. -/
def seenGap (store : GtsStore) (root : String) (seen : List String) : Nat :=
  (idUniverse store root \ seen.toFinset).card

theorem storeGet_mem_universe {store : GtsStore} {root gtsID : String}
    {e : JsonEntity} (h : storeGet store gtsID = some e) :
    gtsID ∈ idUniverse store root := by
  unfold storeGet at h
  rcases hf : store.byID.find? (fun p => p.1 = gtsID) with _ | p
  · rw [hf] at h; simp at h
  · have hmem := List.mem_of_find?_eq_some hf
    have heq := List.find?_some hf
    simp only [decide_eq_true_eq] at heq
    unfold idUniverse
    have h1 : gtsID ∈ store.byID.map (fun q => q.1) :=
      heq ▸ List.mem_map_of_mem (fun q => q.1) hmem
    simp only [Finset.mem_union, List.mem_toFinset]
    exact Or.inl (Or.inl (Or.inl h1))

theorem seenGap_lt {store : GtsStore} {root gtsID : String}
    {seen : List String} (hU : gtsID ∈ idUniverse store root)
    (hnew : gtsID ∉ seen) :
    seenGap store root (gtsID :: seen) < seenGap store root seen := by
  unfold seenGap
  apply Finset.card_lt_card
  constructor
  · intro x hx
    simp only [Finset.mem_sdiff, List.toFinset_cons, Finset.mem_insert] at hx ⊢
    exact ⟨hx.1, fun hc => hx.2 (Or.inr hc)⟩
  · intro hsub
    have h1 : gtsID ∈ idUniverse store root \ seen.toFinset := by
      simp only [Finset.mem_sdiff, List.mem_toFinset]
      exact ⟨hU, hnew⟩
    have h2 := hsub h1
    simp at h2

theorem seenGap_le_of_subset {store : GtsStore} {root : String}
    {s1 s2 : List String} (h : ∀ x ∈ s1, x ∈ s2) :
    seenGap store root s2 ≤ seenGap store root s1 := by
  unfold seenGap
  apply Finset.card_le_card
  intro x hx
  simp only [Finset.mem_sdiff, List.mem_toFinset] at hx ⊢
  exact ⟨hx.1, fun hc => hx.2 (h x hc)⟩

mutual

/-- Mirror of Go `buildNode`.  The shared mutable `seen` map becomes an
explicitly threaded list; the result carries the proof that `seen` only
grows, which feeds the termination measure. -/
def buildNode (store : GtsStore) (root : String) (gtsID : String)
    (seen : List String) :
    {p : SchemaGraphNode × List String // ∀ x ∈ seen, x ∈ p.2} :=
  if hseen : gtsID ∈ seen then
    ⟨(.mk gtsID [] none [], seen), fun _ hx => hx⟩
  else
    match hget : storeGet store gtsID with
    | none =>
      ⟨(.mk gtsID [] none ["Entity not found"], gtsID :: seen),
       fun _ hx => List.mem_cons_of_mem _ hx⟩
    | some entity =>
      match buildRefs store root gtsID entity.gtsRefs (gtsID :: seen) [] with
      | ⟨(refs, seen2), hsub2⟩ =>
        if entity.schemaID ≠ "" then
          if ¬ isJSONSchemaURL entity.schemaID then
            match buildNode store root entity.schemaID seen2 with
            | ⟨(schemaChild, seen3), hsub3⟩ =>
              ⟨(.mk gtsID refs (some schemaChild) [], seen3),
               fun x hx => hsub3 x (hsub2 x (List.mem_cons_of_mem _ hx))⟩
          else
            ⟨(.mk gtsID refs none [], seen2),
             fun x hx => hsub2 x (List.mem_cons_of_mem _ hx)⟩
        else if ¬ entity.isSchema then
          ⟨(.mk gtsID refs none ["Schema not recognized"], seen2),
           fun x hx => hsub2 x (List.mem_cons_of_mem _ hx)⟩
        else
          ⟨(.mk gtsID refs none [], seen2),
           fun x hx => hsub2 x (List.mem_cons_of_mem _ hx)⟩
termination_by (seenGap store root seen, 0, 0)
decreasing_by
  · exact Prod.Lex.left _ _ (seenGap_lt (storeGet_mem_universe hget) hseen)
  · apply Prod.Lex.left
    have h1 : seenGap store root (gtsID :: seen) < seenGap store root seen :=
      seenGap_lt (storeGet_mem_universe hget) hseen
    have h2 : seenGap store root seen2 ≤ seenGap store root (gtsID :: seen) :=
      seenGap_le_of_subset hsub2
    omega

/-- The reference loop of `buildNode`: builds a child per reference
(skipping self references and JSON-Schema meta URLs), threading `seen`. -/
def buildRefs (store : GtsStore) (root : String) (gtsID : String)
    (refs : List GtsReference) (seen : List String)
    (acc : List (String × SchemaGraphNode)) :
    {p : List (String × SchemaGraphNode) × List String // ∀ x ∈ seen, x ∈ p.2} :=
  match refs with
  | [] => ⟨(acc, seen), fun _ hx => hx⟩
  | ref :: rest =>
    if ref.id = gtsID then
      buildRefs store root gtsID rest seen acc
    else if isJSONSchemaURL ref.id then
      buildRefs store root gtsID rest seen acc
    else
      match buildNode store root ref.id seen with
      | ⟨(child, seen'), hsub⟩ =>
        match buildRefs store root gtsID rest seen'
            (refsInsert acc ref.sourcePath child) with
        | ⟨(out, seenOut), hsubOut⟩ =>
          ⟨(out, seenOut), fun x hx => hsubOut x (hsub x hx)⟩
termination_by (seenGap store root seen, 1, refs.length)
decreasing_by
  · exact Prod.Lex.right _ (Prod.Lex.right _
      (by simp only [List.length_cons]; omega))
  · exact Prod.Lex.right _ (Prod.Lex.right _
      (by simp only [List.length_cons]; omega))
  · exact Prod.Lex.right _ (Prod.Lex.left _ _ (by omega))
  · have hle : seenGap store root seen' ≤ seenGap store root seen :=
      seenGap_le_of_subset hsub
    rcases lt_or_eq_of_le hle with hlt | heq2
    · exact Prod.Lex.left _ _ hlt
    · rw [heq2]
      exact Prod.Lex.right _ (Prod.Lex.right _
        (by simp only [List.length_cons]; omega))

end

/-- Mirror of Go `BuildSchemaGraph`: a fresh `seen` set per build. -/
def BuildSchemaGraph (store : GtsStore) (gtsID : String) : SchemaGraphNode :=
  (buildNode store gtsID gtsID []).val.1

/-! ## Query filters (`matchesFilters`)

`fmt.Sprintf("%v", x)` on deserialized JSON values is modelled by
`goFormatValue`: `nil` prints `<nil>`, booleans `true`/`false`, numbers in
Go's shortest style (integral floats without a decimal part), strings
verbatim, slices `[e1 e2]`, and maps `map[k1:v1 k2:v2]` with sorted keys. -/

/-- Go `%v` of a JSON number (model: integral values without a decimal
part, otherwise the trimmed decimal expansion). -/
def ratGoString (q : Rat) : String :=
  if q.den = 1 then toString q.num else floatToString q

mutual

def goFormatValue : Json → String
  | .null => "<nil>"
  | .bool b => if b then "true" else "false"
  | .num q => ratGoString q
  | .str s => s
  | .arr xs => "[" ++ String.intercalate " " (goFormatList xs) ++ "]"
  | .obj fs => "map[" ++ String.intercalate " " (sortStrings (goFormatFields fs)) ++ "]"

def goFormatList : List Json → List String
  | [] => []
  | x :: xs => goFormatValue x :: goFormatList xs

def goFormatFields : JObj → List String
  | [] => []
  | (k, v) :: fs => (k ++ ":" ++ goFormatValue v) :: goFormatFields fs

end

/-- `fmt.Sprintf("%v", entityContent[key])`: a missing key reads Go's `nil`. -/
def goFormat : Option Json → String
  | none => "<nil>"
  | some j => goFormatValue j

/-- Mirror of Go `matchesFilters`. -/
def matchesFilters (entityContent : JObj) (filters : List (String × String)) :
    Bool :=
  filters.all (fun kv =>
    let entityValue := goFormat (jLookup entityContent kv.1)
    if kv.2 = "*" then ¬ (entityValue = "" ∨ entityValue = "<nil>")
    else entityValue = kv.2)

/-! # Claim theorems -/

/-- C1 (counterexample to the claim as stated): the wildcard-free pattern
`gts.a.b.c.d.v1~` has one segment, the candidate
`gts.a.b.c.d.v1~e.f.g.h.v1` has two, yet `MatchIDPattern` reports a match —
candidate segments beyond the pattern's length do remain unmatched. -/
theorem matchSegments_extra_candidate_segments_match :
    (MatchIDPattern "gts.a.b.c.d.v1~e.f.g.h.v1" "gts.a.b.c.d.v1~").isMatch = true ∧
    (NewGtsID "gts.a.b.c.d.v1~e.f.g.h.v1".toList).toOption.map
        (fun g => g.segments.length) = some 2 ∧
    (validateWildcard "gts.a.b.c.d.v1~".toList).toOption.map
        (fun g => g.segments.length) = some 1 :=
  ⟨by decide, by decide, by decide⟩

/-- C1 (amended): the matcher reports a match only if the candidate has at
least as many segments as the pattern; once every pattern segment has
matched positionally, any remaining candidate segments are accepted (prefix
semantics), even for wildcard-free patterns. -/
theorem matchSegments_requires_pattern_length_le
    (patternSegs candidateSegs : List GtsIDSegment)
    (h : matchSegments patternSegs candidateSegs = true) :
    patternSegs.length ≤ candidateSegs.length := by
  unfold matchSegments at h
  split at h
  · exact absurd h (by simp)
  · omega

theorem matchSegments_requires_pattern_length_le_witness :
    ([({ num := 1, offset := 4, segment := [] } : GtsIDSegment)]).length ≤
      ([({ num := 1, offset := 4, segment := [] } : GtsIDSegment),
        { num := 2, offset := 10, segment := [] }]).length :=
  matchSegments_requires_pattern_length_le _ _ (by decide)

/-- C7 (code bug): `"gts. a.b.c.d.v1"` is accepted by `NewGtsID` because
`parseSegment` trims whitespace inside the segment, so re-serializing the
parsed segments yields `"gts.a.b.c.d.v1"`, which differs from the stored
identifier text — the re-serialization invariant fails on this input. -/
theorem NewGtsID_whitespace_breaks_reserialization :
    (NewGtsID "gts. a.b.c.d.v1".toList).toOption.map
        (fun g => (reserializeGtsID g, g.id)) =
      some ("gts.a.b.c.d.v1".toList, "gts. a.b.c.d.v1".toList) ∧
    "gts.a.b.c.d.v1".toList ≠ "gts. a.b.c.d.v1".toList :=
  ⟨by decide, by decide⟩

/-- C8: `ToUUID` is a function of the identifier text alone (so two calls
on the same identifier agree), and `gts.x.test5.events.type.v1~` maps to
`de567dcc-10ef-597d-8f82-3c999ed9b979` under the UUIDv5 construction with
namespace `UUIDv5(URL namespace, "gts")`. -/
theorem ToUUID_deterministic_and_fixture (g g' : GtsID) (h : g.id = g'.id) :
    ToUUID g = ToUUID g' ∧
    (NewGtsID "gts.x.test5.events.type.v1~".toList).toOption.map ToUUID =
      some uuidFixtureBytes := by
  constructor
  · unfold ToUUID
    rw [h]
  · decide

theorem ToUUID_deterministic_and_fixture_witness :
    ToUUID { id := "gts.x.test5.events.type.v1~".toList, segments := [] } =
      ToUUID { id := "gts.x.test5.events.type.v1~".toList,
               segments := [{ num := 1, offset := 4, segment := [] }] } ∧
    (NewGtsID "gts.x.test5.events.type.v1~".toList).toOption.map ToUUID =
      some uuidFixtureBytes :=
  ToUUID_deterministic_and_fixture _ _ rfl

/-- C10: a filter `key=*` excludes entities whose content lacks the key
(the absent value formats as `<nil>`); the literal filter value `<nil>`
matches exactly those entities; and in general a filter compares the Go
`%v` formatting of the content value with the filter string. -/
theorem matchesFilters_absent_key_and_go_formatting :
    (∀ (content : JObj) (rest : List (String × String)) (k : String),
        jLookup content k = none →
        matchesFilters content ((k, "*") :: rest) = false) ∧
    (∀ (content : JObj) (rest : List (String × String)) (k : String),
        jLookup content k = none →
        matchesFilters content ((k, "<nil>") :: rest) =
          matchesFilters content rest) ∧
    (∀ (content : JObj) (k v : String) (j : Json),
        jLookup content k = some j → v ≠ "*" →
        (matchesFilters content [(k, v)] = true ↔ goFormatValue j = v)) := by
  refine ⟨?_, ?_, ?_⟩
  · intro content rest k h
    simp [matchesFilters, goFormat, h]
  · intro content rest k h
    simp [matchesFilters, goFormat, h]
  · intro content k v j h hv
    simp [matchesFilters, goFormat, h, hv]

theorem matchesFilters_absent_key_and_go_formatting_witness :
    matchesFilters [] [("status", "*")] = false ∧
    matchesFilters [] [("status", "<nil>")] = matchesFilters [] [] ∧
    (matchesFilters [("n", Json.num 5)] [("n", "5")] = true ↔
      goFormatValue (Json.num 5) = "5") :=
  ⟨matchesFilters_absent_key_and_go_formatting.1 [] [] "status" rfl,
   matchesFilters_absent_key_and_go_formatting.2.1 [] [] "status" rfl,
   matchesFilters_absent_key_and_go_formatting.2.2 [("n", Json.num 5)] "n" "5"
     (Json.num 5) rfl (by decide)⟩

/-- The tightening condition of C4 on one bound pair: the new schema raises
the minimum, lowers the maximum, or introduces a bound the old schema did
not declare. -/
def tightensBound (o n : JObj) (minKey maxKey : String) : Prop :=
  (∃ a b, getNumber o minKey = some a ∧ getNumber n minKey = some b ∧ b > a) ∨
  (getNumber o minKey = none ∧ ∃ b, getNumber n minKey = some b) ∨
  (∃ a b, getNumber o maxKey = some a ∧ getNumber n maxKey = some b ∧ b < a) ∨
  (getNumber o maxKey = none ∧ ∃ b, getNumber n maxKey = some b)

/-- The relaxing condition of C4 on one bound pair: the new schema lowers
the minimum, raises the maximum, or removes a bound the old schema
declared. -/
def relaxesBound (o n : JObj) (minKey maxKey : String) : Prop :=
  (∃ a b, getNumber o minKey = some a ∧ getNumber n minKey = some b ∧ b < a) ∨
  ((∃ a, getNumber o minKey = some a) ∧ getNumber n minKey = none) ∨
  (∃ a b, getNumber o maxKey = some a ∧ getNumber n maxKey = some b ∧ b > a) ∨
  ((∃ a, getNumber o maxKey = some a) ∧ getNumber n maxKey = none)

theorem checkMinMaxConstraint_tighten_iff (prop : String) (o n : JObj)
    (minKey maxKey : String) :
    checkMinMaxConstraint prop o n minKey maxKey true ≠ [] ↔
      tightensBound o n minKey maxKey := by
  unfold checkMinMaxConstraint tightensBound
  rcases hom : getNumber o minKey with _ | a <;>
    rcases hnm : getNumber n minKey with _ | b <;>
    rcases hox : getNumber o maxKey with _ | c <;>
    rcases hnx : getNumber n maxKey with _ | d <;>
    simp <;> (try split_ifs) <;> (try simp_all) <;>
    rw [imp_iff_not_or, not_le]

theorem checkMinMaxConstraint_relax_iff (prop : String) (o n : JObj)
    (minKey maxKey : String) :
    checkMinMaxConstraint prop o n minKey maxKey false ≠ [] ↔
      relaxesBound o n minKey maxKey := by
  unfold checkMinMaxConstraint relaxesBound
  rcases hom : getNumber o minKey with _ | a <;>
    rcases hnm : getNumber n minKey with _ | b <;>
    rcases hox : getNumber o maxKey with _ | c <;>
    rcases hnx : getNumber n maxKey with _ | d <;>
    simp <;> (try split_ifs) <;> (try simp_all) <;>
    rw [imp_iff_not_or, not_le]

/-- C4: for a property present in both flattened schemas, the backward
check emits a bound-pair violation exactly when the new schema tightens the
pair selected by the declared type, and the forward check exactly when the
new schema relaxes it (`minimum`/`maximum` for number or integer,
`minLength`/`maxLength` for string, `minItems`/`maxItems` for array). -/
theorem checkConstraintCompatibility_tighten_relax_iff
    (prop : String) (o n : JObj) :
    (checkConstraintCompatibility prop o n true ≠ [] ↔
      ((getString o "type" = "number" ∨ getString o "type" = "integer") ∧
        tightensBound o n "minimum" "maximum") ∨
      (getString o "type" = "string" ∧ tightensBound o n "minLength" "maxLength") ∨
      (getString o "type" = "array" ∧ tightensBound o n "minItems" "maxItems")) ∧
    (checkConstraintCompatibility prop o n false ≠ [] ↔
      ((getString o "type" = "number" ∨ getString o "type" = "integer") ∧
        relaxesBound o n "minimum" "maximum") ∨
      (getString o "type" = "string" ∧ relaxesBound o n "minLength" "maxLength") ∨
      (getString o "type" = "array" ∧ relaxesBound o n "minItems" "maxItems")) := by
  constructor
  · unfold checkConstraintCompatibility
    dsimp only
    rw [← checkMinMaxConstraint_tighten_iff prop o n "minimum" "maximum",
      ← checkMinMaxConstraint_tighten_iff prop o n "minLength" "maxLength",
      ← checkMinMaxConstraint_tighten_iff prop o n "minItems" "maxItems"]
    split_ifs <;> simp_all
  · unfold checkConstraintCompatibility
    dsimp only
    rw [← checkMinMaxConstraint_relax_iff prop o n "minimum" "maximum",
      ← checkMinMaxConstraint_relax_iff prop o n "minLength" "maxLength",
      ← checkMinMaxConstraint_relax_iff prop o n "minItems" "maxItems"]
    split_ifs <;> simp_all

/-- The precondition failures of C5: instance absent, target schema
absent, source entity is itself a schema, no governing schema id, or
governing schema absent. -/
def castPreconditionFails (store : GtsStore) (instanceID toSchemaID : String) : Prop :=
  storeGet store instanceID = none ∨
  storeGet store toSchemaID = none ∨
  (∃ ie, storeGet store instanceID = some ie ∧ ie.isSchema = true) ∨
  (∃ ie, storeGet store instanceID = some ie ∧ ie.isSchema = false ∧
    ie.schemaID = "") ∨
  (∃ ie, storeGet store instanceID = some ie ∧ ie.isSchema = false ∧
    ie.schemaID ≠ "" ∧ storeGet store ie.schemaID = none)

/-- C5: `Cast` returns a hard error exactly when a precondition fails
(instance absent, target schema absent, casting from a schema, no
governing schema id, or governing schema absent); whenever the
preconditions pass, any returned value is a `CastResult`, never an error
— structural mismatches surface only as diagnostics inside the result. -/
theorem Cast_error_iff_precondition_failure (store : GtsStore)
    (validator : JObj → JObj → Option String) (instanceID toSchemaID : String) :
    ((∃ e, Cast store validator instanceID toSchemaID =
        some (Except.error e)) ↔
      castPreconditionFails store instanceID toSchemaID) ∧
    (∀ res, Cast store validator instanceID toSchemaID = some res →
      ¬ castPreconditionFails store instanceID toSchemaID →
      ∃ r, res = Except.ok r) := by
  unfold Cast castPreconditionFails
  rcases h1 : storeGet store instanceID with _ | ie
  · simp [h1]
  · rcases h2 : storeGet store toSchemaID with _ | ts
    · simp [h1, h2]
    · by_cases h3 : ie.isSchema
      · simp [h1, h2, h3]
      · by_cases h4 : ie.schemaID = ""
        · simp [h1, h2, h3, h4]
        · rcases h5 : storeGet store ie.schemaID with _ | fs
          · simp [h1, h2, h3, h4, h5]
          · rcases h6 : castInstance instanceID toSchemaID ie.content
                (fs.content.getD []) (ts.content.getD []) validator with _ | r
            · simp [h1, h2, h3, h4, h5, h6]
            · simp [h1, h2, h3, h4, h5, h6]

/-- C5 at a concrete input: on the empty registry the cast of `"a"` to
`"b"` is a hard error. -/
theorem Cast_error_iff_precondition_failure_witness :
    ∃ e, Cast ⟨[]⟩ (fun _ _ => none) "a" "b" = some (Except.error e) :=
  (Cast_error_iff_precondition_failure ⟨[]⟩ (fun _ _ => none) "a" "b").1.mpr
    (Or.inl rfl)

theorem jLookup_jInsert (r : JObj) (k : String) (v : Json) (k' : String) :
    jLookup (jInsert r k v) k' = if k = k' then some v else jLookup r k' := by
  induction r with
  | nil => simp [jInsert, jLookup]
  | cons p rest ih =>
    obtain ⟨k0, v0⟩ := p
    by_cases h : k0 = k
    · subst h
      simp only [jInsert, if_pos rfl, jLookup]
      split_ifs <;> simp_all [jLookup]
    · simp only [jInsert, if_neg h, jLookup]
      split_ifs with h2 <;> simp_all [jLookup]

theorem castStep1_lookup_not_mem (targetProps : JObj) (basePath : String) :
    ∀ (required : List String) (result : JObj) (k : String), k ∉ required →
      jLookup (castStep1 targetProps basePath required result).1 k =
        jLookup result k := by
  intro required
  induction required with
  | nil => intro result k _; rfl
  | cons r rest ih =>
    intro result k hk
    have hk1 : k ≠ r := fun h => hk (h ▸ List.mem_cons_self r rest)
    have hk2 : k ∉ rest := fun h => hk (List.mem_cons_of_mem r h)
    rw [castStep1]
    dsimp only
    rw [ih _ k hk2]
    by_cases hc : jContains result r
    · simp [hc]
    · simp only [hc, Bool.false_eq_true, not_false_eq_true, if_true]
      rcases hm : getMap targetProps r with _ | ps
      · simp [hm]
      · rcases hd : jLookup ps "default" with _ | d
        · simp [hm, hd]
        · simp [hm, hd, jLookup_jInsert, if_neg (Ne.symm hk1)]

theorem castStep1_contains_not_mem (targetProps : JObj) (basePath : String)
    (required : List String) (result : JObj) (k : String) (hk : k ∉ required) :
    jContains (castStep1 targetProps basePath required result).1 k =
      jContains result k := by
  unfold jContains
  rw [castStep1_lookup_not_mem targetProps basePath required result k hk]

/-- C2 counterexample: the instance is empty, `"foo"` is required, and the
schema declares no property schema (no default either), yet the cast
records no diagnostic at all: the required-property pass silently skips a
required property that has no object property schema, contradicting the
claimed unconditional diagnostic. -/
theorem castInstanceToSchema_required_without_property_schema_not_diagnosed :
    "foo" ∈ getRequiredSet [("required", Json.arr [Json.str "foo"])] ∧
    jContains ([] : JObj) "foo" = false ∧
    castInstanceToSchema (some []) [("required", Json.arr [Json.str "foo"])] ""
      = (some [], [], [], []) := by
  refine ⟨by decide, by decide, ?_⟩
  rw [castInstanceToSchema, castStep4.eq_def]
  rfl

/-- C2 amended: in the required-property pass, a required property absent
from the working copy is (a) filled from its property schema's default and
its path recorded as added, when a default exists; (b) reported as
"missing required property … no default is defined", when an object
property schema exists but declares no default; (c) silently skipped and
left absent, when the target declares no object property schema for it.
The pass always returns; it never aborts the cast. -/
theorem castStep1_missing_required_trichotomy (targetProps : JObj)
    (basePath : String) (required : List String) (result : JObj)
    (reqProp : String) (hnd : required.Nodup) (hreq : reqProp ∈ required)
    (habs : jContains result reqProp = false) :
    (∀ ps d, getMap targetProps reqProp = some ps →
      jLookup ps "default" = some d →
      jLookup (castStep1 targetProps basePath required result).1 reqProp =
        some (copyValue d) ∧
      buildPath basePath reqProp ∈
        (castStep1 targetProps basePath required result).2.1) ∧
    (∀ ps, getMap targetProps reqProp = some ps →
      jLookup ps "default" = none →
      ("Missing required property '" ++ buildPath basePath reqProp ++
        "' and no default is defined") ∈
        (castStep1 targetProps basePath required result).2.2) ∧
    (getMap targetProps reqProp = none →
      jContains (castStep1 targetProps basePath required result).1 reqProp
        = false) := by
  induction required generalizing result with
  | nil => cases hreq
  | cons r rest ih =>
    rcases List.mem_cons.mp hreq with heq | hmem
    · subst heq
      have hrest : reqProp ∉ rest := (List.nodup_cons.mp hnd).1
      refine ⟨?_, ?_, ?_⟩
      · intro ps d hm hd
        rw [castStep1]
        dsimp only
        simp only [habs, Bool.false_eq_true, not_false_eq_true, if_true,
          hm, hd]
        constructor
        · rw [castStep1_lookup_not_mem targetProps basePath rest _ reqProp
            hrest]
          simp [jLookup_jInsert]
        · exact List.mem_append_left _ (List.mem_singleton.mpr rfl)
      · intro ps hm hd
        rw [castStep1]
        dsimp only
        simp only [habs, Bool.false_eq_true, not_false_eq_true, if_true,
          hm, hd]
        exact List.mem_append_left _ (List.mem_singleton.mpr rfl)
      · intro hm
        rw [castStep1]
        dsimp only
        simp only [habs, Bool.false_eq_true, not_false_eq_true, if_true, hm]
        rw [castStep1_contains_not_mem targetProps basePath rest _ reqProp
          hrest]
        exact habs
    · have hnd2 : rest.Nodup := (List.nodup_cons.mp hnd).2
      have hner : reqProp ≠ r :=
        fun h => (List.nodup_cons.mp hnd).1 (h ▸ hmem)
      have hpres : ∀ d, jContains (jInsert result r d) reqProp = false := by
        intro d
        unfold jContains
        rw [jLookup_jInsert, if_neg (Ne.symm hner)]
        unfold jContains at habs
        exact habs
      rw [castStep1]
      dsimp only
      by_cases hcr : jContains result r
      · rw [if_neg (not_not_intro hcr)]
        obtain ⟨ha, hb, hc2⟩ := ih result hnd2 hmem habs
        exact ⟨fun ps d hm hd => ⟨(ha ps d hm hd).1,
            List.mem_append_right _ (ha ps d hm hd).2⟩,
          fun ps hm hd => List.mem_append_right _ (hb ps hm hd), hc2⟩
      · rw [if_pos hcr]
        rcases hm : getMap targetProps r with _ | ps
        · obtain ⟨ha, hb, hc2⟩ := ih result hnd2 hmem habs
          exact ⟨fun ps d hm2 hd => ⟨(ha ps d hm2 hd).1,
              List.mem_append_right _ (ha ps d hm2 hd).2⟩,
            fun ps hm2 hd => List.mem_append_right _ (hb ps hm2 hd), hc2⟩
        · dsimp only
          rcases hd : jLookup ps "default" with _ | d
          · obtain ⟨ha, hb, hc2⟩ := ih result hnd2 hmem habs
            exact ⟨fun ps2 d hm2 hd2 => ⟨(ha ps2 d hm2 hd2).1,
                List.mem_append_right _ (ha ps2 d hm2 hd2).2⟩,
              fun ps2 hm2 hd2 => List.mem_append_right _ (hb ps2 hm2 hd2),
              hc2⟩
          · obtain ⟨ha, hb, hc2⟩ :=
              ih (jInsert result r (copyValue d)) hnd2 hmem
                (hpres (copyValue d))
            exact ⟨fun ps2 d2 hm2 hd2 => ⟨(ha ps2 d2 hm2 hd2).1,
                List.mem_append_right _ (ha ps2 d2 hm2 hd2).2⟩,
              fun ps2 hm2 hd2 => List.mem_append_right _ (hb ps2 hm2 hd2),
              hc2⟩

/-- C2 amended at a concrete input: over the one-property schema map
`foo ↦ \x7b default: 7 \x7d` with `foo` required and an empty instance, the
trichotomy applies with every hypothesis discharged. -/
theorem castStep1_missing_required_trichotomy_witness :
    (∀ ps d, getMap [("foo", Json.obj [("default", Json.num 7)])] "foo"
        = some ps →
      jLookup ps "default" = some d →
      jLookup (castStep1 [("foo", Json.obj [("default", Json.num 7)])] ""
          ["foo"] []).1 "foo" = some (copyValue d) ∧
      "foo" ∈ (castStep1 [("foo", Json.obj [("default", Json.num 7)])] ""
          ["foo"] []).2.1) ∧
    (∀ ps, getMap [("foo", Json.obj [("default", Json.num 7)])] "foo"
        = some ps →
      jLookup ps "default" = none →
      ("Missing required property '" ++ "foo" ++
        "' and no default is defined") ∈
        (castStep1 [("foo", Json.obj [("default", Json.num 7)])] ""
          ["foo"] []).2.2) ∧
    (getMap [("foo", Json.obj [("default", Json.num 7)])] "foo" = none →
      jContains (castStep1 [("foo", Json.obj [("default", Json.num 7)])] ""
        ["foo"] []).1 "foo" = false) := by
  have h := castStep1_missing_required_trichotomy
    [("foo", Json.obj [("default", Json.num 7)])] "" ["foo"] [] "foo"
    (by decide) (by decide) (by decide)
  simpa [buildPath] using h

/-! ## Required-set difference (claim C3) -/

/-- The event-schema example of the spec: old schema requires only
`eventId`. -/
def c3OldSchema : JObj :=
  [("properties", Json.obj
      [("eventId", Json.obj [("type", Json.str "string")]),
       ("newRequiredField", Json.obj [("type", Json.str "string")])]),
   ("required", Json.arr [Json.str "eventId"])]
def c3NewSchema : JObj :=
  [("properties", Json.obj
      [("eventId", Json.obj [("type", Json.str "string")]),
       ("newRequiredField", Json.obj [("type", Json.str "string")])]),
   ("required", Json.arr [Json.str "eventId", Json.str "newRequiredField"])]

theorem c3OldFlat : flattenSchema c3OldSchema = c3OldSchema := by
  rw [flattenSchema]; rfl

theorem c3NewFlat : flattenSchema c3NewSchema = c3NewSchema := by
  rw [flattenSchema]; rfl

theorem c3cp0 (cb : Bool) :
    checkCompatProps c3OldSchema c3NewSchema cb [] = some [] := by
  rw [checkCompatProps]

theorem c3cp1 (cb : Bool) :
    checkCompatProps c3OldSchema c3NewSchema cb ["newRequiredField"] = some [] := by
  rw [checkCompatProps, c3OldFlat, c3NewFlat]
  simp [c3OldSchema, c3NewSchema, jLookup, getPropertiesMap, getString,
    getStringSlice, getNumber, checkConstraintCompatibility,
    checkMinMaxConstraint, getMap, stringSliceToSet]
  rw [← c3OldSchema.eq_def, ← c3NewSchema.eq_def, c3cp0]

theorem c3cp2 (cb : Bool) :
    checkCompatProps c3OldSchema c3NewSchema cb ["eventId", "newRequiredField"]
      = some [] := by
  rw [checkCompatProps, c3OldFlat, c3NewFlat]
  simp [c3OldSchema, c3NewSchema, jLookup, getPropertiesMap, getString,
    getStringSlice, getNumber, checkConstraintCompatibility,
    checkMinMaxConstraint, getMap, stringSliceToSet]
  rw [← c3OldSchema.eq_def, ← c3NewSchema.eq_def, c3cp1]

theorem c3Backward :
    checkBackwardCompatibility c3OldSchema c3NewSchema =
      some (false, ["Added required properties: newRequiredField"]) := by
  rw [checkBackwardCompatibility, checkSchemaCompatibility, c3OldFlat, c3NewFlat]
  rw [show setIntersection (getKeys (getPropertiesMap c3OldSchema))
      (getKeys (getPropertiesMap c3NewSchema))
      = ["eventId", "newRequiredField"] from rfl]
  rw [c3cp2 true]
  rfl

theorem c3Forward :
    checkForwardCompatibility c3OldSchema c3NewSchema = some (true, []) := by
  rw [checkForwardCompatibility, checkSchemaCompatibility, c3OldFlat, c3NewFlat]
  rw [show setIntersection (getKeys (getPropertiesMap c3OldSchema))
      (getKeys (getPropertiesMap c3NewSchema))
      = ["eventId", "newRequiredField"] from rfl]
  rw [c3cp2 false]
  rfl

/-- Go `strings.HasPrefix` on Lean strings. -/
def strHasPfx (p s : String) : Bool := hasPfx p.toList s.toList

theorem strHasPfx_self_append (p t : String) : strHasPfx p (p ++ t) = true := by
  unfold strHasPfx hasPfx
  rw [List.isPrefixOf_iff_prefix]
  have h : (p ++ t).toList = p.toList ++ t.toList := by
    simp [String.toList]
  rw [h]
  exact List.prefix_append _ _

theorem strHasPfx_clash {p q s : String} (hp : strHasPfx p s = true)
    (hq : strHasPfx q s = true) (hlen : p.toList.length ≤ q.toList.length) :
    strHasPfx p q = true := by
  unfold strHasPfx hasPfx at hp hq ⊢
  rw [List.isPrefixOf_iff_prefix] at hp hq ⊢
  exact List.prefix_of_prefix_length_le hp hq hlen

theorem checkMinMaxConstraint_shape (prop : String) (o n : JObj)
    (minKey maxKey : String) (ct : Bool) :
    ∀ e ∈ checkMinMaxConstraint prop o n minKey maxKey ct,
      strHasPfx "Property '" e = true := by
  intro e he
  unfold checkMinMaxConstraint at he
  dsimp only at he
  cases ct <;>
    rcases hom : getNumber o minKey with _ | a <;>
    rcases hnm : getNumber n minKey with _ | b <;>
    rcases hox : getNumber o maxKey with _ | c <;>
    rcases hnx : getNumber n maxKey with _ | d <;>
    rw [hom, hnm, hox, hnx] at he <;>
    dsimp only at he <;>
    (try split_ifs at he) <;>
    simp only [List.mem_append, List.mem_singleton, List.not_mem_nil,
      or_false, false_or, List.append_nil, List.nil_append] at he <;>
    first
    | exact he.elim
    | (rcases he with rfl | rfl <;>
        (simp only [String.append_assoc]; exact strHasPfx_self_append _ _))
    | (subst he; simp only [String.append_assoc];
        exact strHasPfx_self_append _ _)

theorem checkConstraintCompatibility_shape (prop : String) (o n : JObj)
    (ct : Bool) :
    ∀ e ∈ checkConstraintCompatibility prop o n ct,
      strHasPfx "Property '" e = true := by
  intro e he
  unfold checkConstraintCompatibility at he
  dsimp only at he
  rcases List.mem_append.mp he with h | h
  · rcases List.mem_append.mp h with h2 | h2
    · split_ifs at h2
      · exact checkMinMaxConstraint_shape prop o n "minimum" "maximum" ct e h2
      · exact absurd h2 (List.not_mem_nil _)
    · split_ifs at h2
      · exact checkMinMaxConstraint_shape prop o n "minLength" "maxLength" ct e h2
      · exact absurd h2 (List.not_mem_nil _)
  · split_ifs at h
    · exact checkMinMaxConstraint_shape prop o n "minItems" "maxItems" ct e h
    · exact absurd h (List.not_mem_nil _)

theorem mem_map_pfx {prop hdr e : String} {f : List String}
    (he : e ∈ f.map (fun x => "Property '" ++ prop ++ hdr ++ x)) :
    strHasPfx "Property '" e = true := by
  obtain ⟨x, _, rfl⟩ := List.mem_map.mp he
  simp only [String.append_assoc]
  exact strHasPfx_self_append _ _

theorem checkCompatProps_shape (oldSchema newSchema : JObj) (cb : Bool) :
    ∀ (props : List String) (errs : List String),
      checkCompatProps oldSchema newSchema cb props = some errs →
      ∀ e ∈ errs, strHasPfx "Property '" e = true := by
  intro props
  induction props with
  | nil =>
    intro errs h e he
    rw [checkCompatProps] at h
    injection h with h
    subst h
    exact absurd he (List.not_mem_nil _)
  | cons prop rest ih =>
    intro errs h e he
    rw [checkCompatProps] at h
    dsimp only at h
    split at h
    case _ =>
      split at h
      case _ =>
        split at h
        case _ => exact absurd h (by simp)
        case _ nestedPrefixed heqN =>
          split at h
          case _ => exact absurd h (by simp)
          case _ arrPrefixed heqA =>
            split at h
            case _ => exact absurd h (by simp)
            case _ restErrs heqR =>
              injection h with h
              subst h
              simp only [List.mem_append] at he
              rcases he with ((((ht | hen) | hc) | hn) | ha) | hr
              · split_ifs at ht
                · rcases List.mem_singleton.mp ht with rfl
                  simp only [String.append_assoc]
                  exact strHasPfx_self_append _ _
                · exact absurd ht (List.not_mem_nil _)
              · split_ifs at hen <;>
                  first
                  | exact absurd hen (List.not_mem_nil _)
                  | (rcases List.mem_singleton.mp hen with rfl;
                      simp only [String.append_assoc];
                      exact strHasPfx_self_append _ _)
              · exact checkConstraintCompatibility_shape prop _ _ cb e hc
              · split_ifs at heqN
                · split at heqN
                  case _ => exact absurd heqN (by simp)
                  case _ =>
                    split_ifs at heqN <;> injection heqN with heqN <;>
                      subst heqN
                    · exact absurd hn (List.not_mem_nil _)
                    · exact mem_map_pfx hn
                · injection heqN with heqN
                  subst heqN
                  exact absurd hn (List.not_mem_nil _)
              · split_ifs at heqA
                · split at heqA
                  case _ =>
                    split at heqA
                    case _ =>
                      split at heqA
                      case _ => exact absurd heqA (by simp)
                      case _ =>
                        split_ifs at heqA <;> injection heqA with heqA <;>
                          subst heqA
                        · exact absurd ha (List.not_mem_nil _)
                        · exact mem_map_pfx ha
                    case _ =>
                      injection heqA with heqA
                      subst heqA
                      exact absurd ha (List.not_mem_nil _)
                  case _ =>
                    injection heqA with heqA
                    subst heqA
                    exact absurd ha (List.not_mem_nil _)
                · injection heqA with heqA
                  subst heqA
                  exact absurd ha (List.not_mem_nil _)
              · exact ih restErrs heqR e hr
      case _ => exact absurd h (by simp)
    case _ => exact absurd h (by simp)

theorem strHasPfx_clash_property_added {e : String}
    (hp : strHasPfx "Property '" e = true)
    (hq : strHasPfx "Added required properties: " e = true) : False := by
  have h := strHasPfx_clash hp hq (by decide)
  revert h
  decide

theorem strHasPfx_clash_property_removed {e : String}
    (hp : strHasPfx "Property '" e = true)
    (hq : strHasPfx "Removed required properties: " e = true) : False := by
  have h := strHasPfx_clash hp hq (by decide)
  revert h
  decide

theorem checkSchemaCompatibility_reqdiff (oldSchema newSchema : JObj)
    (cb ok : Bool) (errs : List String)
    (h : checkSchemaCompatibility oldSchema newSchema cb = some (ok, errs)) :
    ((∃ e ∈ errs, strHasPfx (if cb then "Added required properties: "
        else "Removed required properties: ") e = true) ↔
      (if cb then
        setDifference (getRequiredSet (flattenSchema newSchema))
          (getRequiredSet (flattenSchema oldSchema))
      else
        setDifference (getRequiredSet (flattenSchema oldSchema))
          (getRequiredSet (flattenSchema newSchema))) ≠ []) := by
  rw [checkSchemaCompatibility] at h
  dsimp only at h
  split at h
  · exact absurd h (by simp)
  · rename_i propErrs hcp
    rw [Option.some.injEq, Prod.mk.injEq] at h
    obtain ⟨hok, herrs⟩ := h
    subst herrs
    cases cb
    · simp only [Bool.false_eq_true, if_false]
      by_cases hD : setDifference (getRequiredSet (flattenSchema oldSchema))
          (getRequiredSet (flattenSchema newSchema)) = []
      · rw [hD]
        simp only [List.length_nil, gt_iff_lt, lt_self_iff_false, if_false,
          List.nil_append]
        constructor
        · rintro ⟨e, he, hp⟩
          exact (strHasPfx_clash_property_removed
            (checkCompatProps_shape oldSchema newSchema false _ propErrs
              hcp e he) hp).elim
        · intro hfalse
          exact absurd rfl hfalse
      · have hlen : (setDifference (getRequiredSet (flattenSchema oldSchema))
            (getRequiredSet (flattenSchema newSchema))).length > 0 :=
          List.length_pos.mpr hD
        rw [if_pos hlen]
        constructor
        · intro _
          exact hD
        · intro _
          refine ⟨"Removed required properties: " ++
            joinStrings (setDifference (getRequiredSet (flattenSchema oldSchema))
              (getRequiredSet (flattenSchema newSchema))), ?_, ?_⟩
          · exact List.mem_append_left _ (List.mem_singleton.mpr rfl)
          · exact strHasPfx_self_append _ _
    · simp only [eq_self_iff_true, if_true]
      by_cases hD : setDifference (getRequiredSet (flattenSchema newSchema))
          (getRequiredSet (flattenSchema oldSchema)) = []
      · rw [hD]
        simp only [List.length_nil, gt_iff_lt, lt_self_iff_false, if_false,
          List.nil_append]
        constructor
        · rintro ⟨e, he, hp⟩
          exact (strHasPfx_clash_property_added
            (checkCompatProps_shape oldSchema newSchema true _ propErrs
              hcp e he) hp).elim
        · intro hfalse
          exact absurd rfl hfalse
      · have hlen : (setDifference (getRequiredSet (flattenSchema newSchema))
            (getRequiredSet (flattenSchema oldSchema))).length > 0 :=
          List.length_pos.mpr hD
        rw [if_pos hlen]
        constructor
        · intro _
          exact hD
        · intro _
          refine ⟨"Added required properties: " ++
            joinStrings (setDifference (getRequiredSet (flattenSchema newSchema))
              (getRequiredSet (flattenSchema oldSchema))), ?_, ?_⟩
          · exact List.mem_append_left _ (List.mem_singleton.mpr rfl)
          · exact strHasPfx_self_append _ _

/-- C3: after allOf flattening, the backward check reports an
added-required violation (an error prefixed "Added required properties: ")
iff the new schema's required set minus the old one's is non-empty, and
the forward check reports a removed-required violation iff the old
required set minus the new one's is non-empty; every other error of the
checker is a per-property diagnostic prefixed "Property '".  On the
event-schema example (old requires eventId, new requires eventId and
newRequiredField) backward is incompatible with the violation naming
newRequiredField while forward is compatible. -/
theorem compatibility_required_set_diff (oldSchema newSchema : JObj)
    (ok : Bool) (errs : List String) :
    (checkBackwardCompatibility oldSchema newSchema = some (ok, errs) →
      ((∃ e ∈ errs, strHasPfx "Added required properties: " e = true) ↔
        setDifference (getRequiredSet (flattenSchema newSchema))
          (getRequiredSet (flattenSchema oldSchema)) ≠ [])) ∧
    (checkForwardCompatibility oldSchema newSchema = some (ok, errs) →
      ((∃ e ∈ errs, strHasPfx "Removed required properties: " e = true) ↔
        setDifference (getRequiredSet (flattenSchema oldSchema))
          (getRequiredSet (flattenSchema newSchema)) ≠ [])) ∧
    checkBackwardCompatibility c3OldSchema c3NewSchema =
      some (false, ["Added required properties: newRequiredField"]) ∧
    checkForwardCompatibility c3OldSchema c3NewSchema = some (true, []) := by
  refine ⟨?_, ?_, c3Backward, c3Forward⟩
  · intro h
    have h2 := checkSchemaCompatibility_reqdiff oldSchema newSchema true ok
      errs h
    simpa using h2
  · intro h
    have h2 := checkSchemaCompatibility_reqdiff oldSchema newSchema false ok
      errs h
    simpa using h2

/-! ## Graph resolver on a two-entity cycle (claim C6) -/

theorem buildNode_seen (store : GtsStore) (root gtsID : String)
    (seen : List String) (h : gtsID ∈ seen) :
    (buildNode store root gtsID seen).val
      = (SchemaGraphNode.mk gtsID [] none [], seen) := by
  rw [buildNode, dif_pos h]

theorem buildRefs_nil (store : GtsStore) (root gtsID : String)
    (seen : List String) (acc : List (String × SchemaGraphNode)) :
    (buildRefs store root gtsID [] seen acc).val = (acc, seen) := by
  rw [buildRefs]

theorem buildRefs_cons_nonskip (store : GtsStore) (root gtsID : String)
    (ref : GtsReference) (rest : List GtsReference) (seen : List String)
    (acc : List (String × SchemaGraphNode)) (h1 : ref.id ≠ gtsID)
    (h2 : isJSONSchemaURL ref.id = false) :
    (buildRefs store root gtsID (ref :: rest) seen acc).val =
      (buildRefs store root gtsID rest
        (buildNode store root ref.id seen).val.2
        (refsInsert acc ref.sourcePath
          (buildNode store root ref.id seen).val.1)).val := by
  rw [buildRefs]
  rw [if_neg h1, if_neg (by simp [h2])]

theorem buildNode_unseen_plain_schema (store : GtsStore)
    (root gtsID : String) (seen : List String) (entity : JsonEntity)
    (hseen : gtsID ∉ seen) (hget : storeGet store gtsID = some entity)
    (hsid : entity.schemaID = "") (hsch : entity.isSchema = true) :
    (buildNode store root gtsID seen).val =
      (SchemaGraphNode.mk gtsID
        (buildRefs store root gtsID entity.gtsRefs (gtsID :: seen) []).val.1
        none [],
       (buildRefs store root gtsID entity.gtsRefs (gtsID :: seen) []).val.2) := by
  rw [buildNode, dif_neg hseen]
  rw [hget]
  simp only [hsid, hsch]
  rfl

def c6IdA : String := "gts.x.core.cycle.a.v1~"
def c6IdB : String := "gts.x.core.cycle.b.v1~"
def c6EntityA : JsonEntity :=
  { schemaID := "", isSchema := true, content := some [],
    gtsRefs := [GtsReference.mk c6IdB "nested"] }
def c6EntityB : JsonEntity :=
  { schemaID := "", isSchema := true, content := some [],
    gtsRefs := [GtsReference.mk c6IdA "nested"] }
def c6Store : GtsStore := ⟨[(c6IdA, c6EntityA), (c6IdB, c6EntityB)]⟩

def c6LeafOfA : SchemaGraphNode := SchemaGraphNode.mk c6IdA [] none []
def c6NodeB : SchemaGraphNode :=
  SchemaGraphNode.mk c6IdB [("nested", c6LeafOfA)] none []
def c6NodeA : SchemaGraphNode :=
  SchemaGraphNode.mk c6IdA [("nested", c6NodeB)] none []

theorem c6NodeBVal :
    (buildNode c6Store c6IdA c6IdB [c6IdA]).val = (c6NodeB, [c6IdB, c6IdA]) := by
  rw [buildNode_unseen_plain_schema c6Store c6IdA c6IdB [c6IdA] c6EntityB
    (by decide) rfl rfl rfl]
  rw [show c6EntityB.gtsRefs = [GtsReference.mk c6IdA "nested"] from rfl]
  rw [buildRefs_cons_nonskip c6Store c6IdA c6IdB (GtsReference.mk c6IdA "nested")
    [] [c6IdB, c6IdA] [] (by decide) (by decide)]
  rw [buildNode_seen c6Store c6IdA c6IdA [c6IdB, c6IdA] (by decide)]
  rw [buildRefs_nil]
  rfl

theorem c6Eval : BuildSchemaGraph c6Store c6IdA = c6NodeA := by
  rw [BuildSchemaGraph]
  rw [buildNode_unseen_plain_schema c6Store c6IdA c6IdA [] c6EntityA
    (by decide) rfl rfl rfl]
  rw [show c6EntityA.gtsRefs = [GtsReference.mk c6IdB "nested"] from rfl]
  rw [buildRefs_cons_nonskip c6Store c6IdA c6IdA (GtsReference.mk c6IdB "nested")
    [] [c6IdA] [] (by decide) (by decide)]
  rw [show (GtsReference.mk c6IdB "nested").id = c6IdB from rfl, c6NodeBVal]
  rw [buildRefs_nil]
  rfl

/-- C6 counterexample: in the two-entity cycle (A.nested -> B,
B.nested -> A) the node built for B underneath A is fully expanded — its
refs map is non-empty (it holds the leaf for A) — contradicting the claim
that B's node under A is a non-expanded leaf.  The cycle is cut one level
deeper: it is A's node under B that is the leaf. -/
theorem BuildSchemaGraph_cycle_child_expanded :
    (BuildSchemaGraph c6Store c6IdA).refs = [("nested", c6NodeB)] ∧
    c6NodeB.refs ≠ [] := by
  constructor
  · rw [c6Eval]
    rfl
  · simp [c6NodeB, SchemaGraphNode.refs]

/-- C6 amended: the build terminates because the threaded seen set only
grows; a recursive call on an identifier already in the seen set returns a
leaf node carrying only the id (no refs, no schema parent, no errors); but
in a two-entity cycle B was not yet seen when A expands it, so B's node
under A is expanded and it is A's node under B that is the non-expanded
leaf. -/
theorem buildNode_seen_leaf_and_cycle (store : GtsStore)
    (root gtsID : String) (seen : List String) (h : gtsID ∈ seen) :
    (buildNode store root gtsID seen).val.1
      = SchemaGraphNode.mk gtsID [] none [] ∧
    BuildSchemaGraph c6Store c6IdA
      = SchemaGraphNode.mk c6IdA
          [("nested", SchemaGraphNode.mk c6IdB
            [("nested", SchemaGraphNode.mk c6IdA [] none [])] none [])]
          none [] := by
  constructor
  · rw [buildNode_seen store root gtsID seen h]
  · rw [c6Eval]
    rfl

/-- C6 amended at a concrete input: the seen-hit leaf on a store-free
build. -/
theorem buildNode_seen_leaf_and_cycle_witness :
    "x" ∈ ["x"] ∧
    (buildNode ⟨[]⟩ "x" "x" ["x"]).val.1 = SchemaGraphNode.mk "x" [] none [] :=
  ⟨by decide,
   (buildNode_seen_leaf_and_cycle ⟨[]⟩ "x" "x" ["x"] (by decide)).1⟩


end Gts
